import Mathlib

/-!
Verification of the CV normalization and PDF generation pipeline.

The JavaScript/TypeScript source is shallowly embedded: JS strings are
modelled as lists of characters (`JStr`), absent/`undefined` values as
`Option`, and each source function is translated into a Lean function of
the same name.  The relevant source functions are:

* `sanitize.ts` (`src/unnamed/part_004`): `isEmpty`, `normalizeWhitespace`,
  `formatPhoneNumber`, `processField`;
* `cv-processor.service.ts` (`src/unnamed/part_005`): `CVProcessorService`
  with `process`, `detectContentMode`, `formatEducation`,
  `processWorkExperience`, `formatCommaSeparated`;
* `pdf-generator.service.ts`: the `ifExists` Handlebars helper and the
  retry loop of `generatePDF`.
-/

namespace CVProof

/-- JS strings are modelled as lists of characters. -/
abbrev JStr := List Char

/-- The whitespace characters relevant to `String.prototype.trim` and the
regex class `\s` (space, tab, carriage return, line feed). -/
def isWS (c : Char) : Bool :=
  c = ' ' || c = '\t' || c = '\r' || c = '\n'

/-- `value.trim()`: remove whitespace from both ends. -/
def jsTrim (l : JStr) : JStr :=
  List.rdropWhile isWS (List.dropWhile isWS l)

/-- `value.toLowerCase()` restricted to the ASCII range, which is all the
source ever compares against (the literal token is the ASCII word none). -/
def toLowerStr (l : JStr) : JStr := l.map Char.toLower

/-- The character class of the regex fragment `[a-zA-Z_]`. -/
def isWordChar (c : Char) : Bool := c.isAlpha || c = '_'

/-- The test `/^@[a-zA-Z_]+$/.test(trimmed)` from `isEmpty`. -/
def isPlaceholder : JStr → Bool
  | [] => false
  | c :: rest => c = '@' && !rest.isEmpty && rest.all isWordChar

/-- `isEmpty` from sanitize.ts, restricted to string arguments: after
trimming, the empty string, the token at-sign, the token none
(case-insensitive) and at-sign followed by word characters are empty. -/
def isEmptyStr (v : JStr) : Bool :=
  let t := jsTrim v
  t.isEmpty || t = ['@'] || toLowerStr t = String.toList "none" || isPlaceholder t

/-- `isEmpty` on an optional value: `null`/`undefined` are empty. -/
def isEmptyOpt : Option JStr → Bool
  | none => true
  | some s => isEmptyStr s

/-- JS truthiness of an optional string: `undefined` and the empty string
are falsy, every other string is truthy. -/
def truthyOpt : Option JStr → Bool
  | none => false
  | some s => !s.isEmpty

/-- The global replace of `/\s+/g` by a single space: each maximal
whitespace run becomes one space.  The flag records whether the previous
character was part of a run already replaced. -/
def collapseWS : Bool → JStr → JStr
  | _, [] => []
  | prevWS, c :: cs =>
    if isWS c then
      if prevWS then collapseWS true cs else ' ' :: collapseWS true cs
    else c :: collapseWS false cs

/-- `normalizeWhitespace` from sanitize.ts: trim, then collapse internal
whitespace runs to single spaces.  (Exported by the source but never
called by the processor; kept here to state claims about collapsing.) -/
def normalizeWhitespace (l : JStr) : JStr :=
  collapseWS false (jsTrim l)

/-- `processField` from sanitize.ts: `undefined` if empty, otherwise the
trimmed value (the trimmed value is never itself empty). -/
def processField (v : Option JStr) : Option JStr :=
  match v with
  | none => none
  | some s =>
    if isEmptyStr s then none
    else
      let processed := jsTrim s
      if processed.isEmpty then none else some processed

/-- `formatPhoneNumber` from sanitize.ts: keep a value that starts with a
plus, replace a leading zero with the +27 country code
(`trimmed.substring(1)` is the tail), otherwise prepend +27. -/
def formatPhoneNumber : Option JStr → Option JStr
  | none => none
  | some phone =>
    if phone.isEmpty then none
    else
      let trimmed := jsTrim phone
      if trimmed.head? = some '+' then some trimmed
      else if trimmed.head? = some '0' then some ('+' :: '2' :: '7' :: trimmed.tail)
      else some ('+' :: '2' :: '7' :: trimmed)

/-- The global replace of `/\s*&\s*/g` by a comma-space, as performed by
`formatCommaSeparated`.  The scan state is: `afterAmp` records that the
trailing `\s*` of a match is still being consumed; `buf` holds a pending
whitespace run that becomes part of a match if an ampersand follows it
and is emitted unchanged otherwise. -/
def replaceAmpGo (afterAmp : Bool) (buf : JStr) : JStr → JStr
  | [] => buf
  | c :: cs =>
    if isWS c then
      if afterAmp then replaceAmpGo true [] cs
      else replaceAmpGo false (buf ++ [c]) cs
    else if c = '&' then ',' :: ' ' :: replaceAmpGo true [] cs
    else buf ++ c :: replaceAmpGo false [] cs

/-- `value.replace(/\s*&\s*/g, ", ")`. -/
def replaceAmp (l : JStr) : JStr := replaceAmpGo false [] l

/-- `value.split(sep)` for a one-character separator: JS split, where the
empty string yields one empty piece and adjacent separators yield empty
pieces. -/
def splitOnChar (sep : Char) : JStr → List JStr
  | [] => [[]]
  | c :: cs =>
    if c = sep then [] :: splitOnChar sep cs
    else
      match splitOnChar sep cs with
      | [] => [[c]]
      | p :: ps => (c :: p) :: ps

/-- `items.join(sep)` for a one-character separator. -/
def joinChar (sep : Char) : List JStr → JStr
  | [] => []
  | [x] => x
  | x :: xs => x ++ sep :: joinChar sep xs

/-- `CVProcessorService.formatCommaSeparated`: pass newline-containing
values through; otherwise replace ampersands by commas, split on commas,
trim the items, drop empty items and re-join with newlines. -/
def formatCommaSeparated : Option JStr → Option JStr
  | none => none
  | some value =>
    if value.isEmpty then none
    else if value.contains '\n' then some value
    else
      let normalized := replaceAmp value
      let items := ((splitOnChar ',' normalized).map jsTrim).filter (fun i => !i.isEmpty)
      if !items.isEmpty then some (joinChar '\n' items) else none

/-- `CVProcessorService.formatEducation`: the processed value passes
through unchanged; the only extra effect is dropping values all of whose
lines are blank. -/
def formatEducation (education : Option JStr) : Option JStr :=
  match processField education with
  | none => none
  | some value =>
    let lines := (splitOnChar '\n' value).filter (fun line => !(jsTrim line).isEmpty)
    if lines.isEmpty then none else some value

/-- A work-experience block as emitted into the projection. -/
structure WorkExp where
  title : JStr
  duration : JStr
  duties : JStr
deriving Repr, DecidableEq

/-- `CVProcessorService.processWorkExperience`: the slot is dropped when
all three processed sub-fields are falsy; otherwise missing sub-fields
become empty strings. -/
def processWorkExperience (title duration duties : Option JStr) : Option WorkExp :=
  let processedTitle := processField title
  let processedDuration := processField duration
  let processedDuties := processField duties
  if !truthyOpt processedTitle && !truthyOpt processedDuration &&
      !truthyOpt processedDuties then
    none
  else
    some ⟨processedTitle.getD [], processedDuration.getD [], processedDuties.getD []⟩

/-- The two-valued layout hint. -/
inductive ContentMode where
  | standard
  | sparse
deriving Repr, DecidableEq

/-- `CVData`: the raw record of recognized optional string fields
(cv.interface.ts). -/
structure CVData where
  full_name : Option JStr := none
  designation : Option JStr := none
  phone : Option JStr := none
  email : Option JStr := none
  physical_address : Option JStr := none
  photo_url : Option JStr := none
  splash_image : Option JStr := none
  career_goal : Option JStr := none
  education_matric : Option JStr := none
  tertiary_education : Option JStr := none
  certificates : Option JStr := none
  other_qualifications : Option JStr := none
  skills : Option JStr := none
  languages : Option JStr := none
  cv_format_type_full_1 : Option JStr := none
  job_duration_1 : Option JStr := none
  job_duties_1 : Option JStr := none
  cv_format_type_full_2 : Option JStr := none
  job_duration_2 : Option JStr := none
  job_duties_2 : Option JStr := none
  cv_format_type_full_3 : Option JStr := none
  job_duration_3 : Option JStr := none
  job_duties_3 : Option JStr := none
  cv_format_type_full_4 : Option JStr := none
  job_duration_4 : Option JStr := none
  job_duties_4 : Option JStr := none
  cv_format_type_full_5 : Option JStr := none
  job_duration_5 : Option JStr := none
  job_duties_5 : Option JStr := none
  reference_1 : Option JStr := none
  reference_2 : Option JStr := none
  reference_3 : Option JStr := none
  reference_4 : Option JStr := none
  reference_5 : Option JStr := none
  additional_experience : Option JStr := none
deriving Repr, DecidableEq

/-- `CVProcessorService.detectContentMode`: sparse when no work-experience
title field is truthy (as a raw value) or the raw tertiary-education field
is not truthy. -/
def detectContentMode (data : CVData) : ContentMode :=
  let hasWorkExperience :=
    truthyOpt data.cv_format_type_full_1 ||
    truthyOpt data.cv_format_type_full_2 ||
    truthyOpt data.cv_format_type_full_3 ||
    truthyOpt data.cv_format_type_full_4 ||
    truthyOpt data.cv_format_type_full_5
  let hasTertiaryEducation := truthyOpt data.tertiary_education
  if !hasWorkExperience || !hasTertiaryEducation then ContentMode.sparse
  else ContentMode.standard

/-- `ProcessedCVData`: the display projection.  String-valued keys that the
source leaves `undefined` (or never assigns) are `none`; the two derived
keys `phone_centered` and `contentMode` are assigned unconditionally and
are therefore not optional. -/
structure ProcessedCVData where
  full_name : Option JStr
  designation : Option JStr
  phone : Option JStr
  email : Option JStr
  physical_address : Option JStr
  photo_url : Option JStr
  splash_image : Option JStr
  phone_centered : Bool
  contentMode : ContentMode
  career_goal : Option JStr
  education_matric : Option JStr
  tertiary_education : Option JStr
  training_certificates_heading : Option JStr
  training_cert_bullet : Option JStr
  other_qualifications_bullet : Option JStr
  skills : Option JStr
  languages : Option JStr
  work_experience_1 : Option WorkExp
  work_experience_2 : Option WorkExp
  work_experience_3 : Option WorkExp
  work_experience_4 : Option WorkExp
  work_experience_5 : Option WorkExp
  reference_1 : Option JStr
  reference_2 : Option JStr
  reference_3 : Option JStr
  reference_4 : Option JStr
  reference_5 : Option JStr
  Additional_Experience_heading : Option JStr
  additional_experience : Option JStr
deriving Repr, DecidableEq

/-- The truthiness test `data.photo_url && typeof data.photo_url ===
'string'` followed by `.trim()`: photo_url deliberately bypasses
`processField` (source comment: always pass photo_url through). -/
def passPhotoUrl : Option JStr → Option JStr
  | none => none
  | some s => if !s.isEmpty then some (jsTrim s) else none

/-- `CVProcessorService.process`: the normalizer. -/
def process (data : CVData) : ProcessedCVData :=
  let email := processField data.email
  let phone := formatPhoneNumber (processField data.phone)
  let certificates := processField data.certificates
  let otherQualifications := processField data.other_qualifications
  let certCond := truthyOpt certificates || truthyOpt otherQualifications
  let additionalExp := processField data.additional_experience
  { full_name := processField data.full_name
    designation := processField data.designation
    phone := phone
    email := email
    physical_address := processField data.physical_address
    photo_url := passPhotoUrl data.photo_url
    splash_image := processField data.splash_image
    phone_centered := !truthyOpt email && truthyOpt phone
    contentMode := detectContentMode data
    career_goal := processField data.career_goal
    education_matric := formatEducation data.education_matric
    tertiary_education := formatEducation data.tertiary_education
    training_certificates_heading :=
      if certCond then some (String.toList "CERTIFICATIONS & QUALIFICATIONS")
      else none
    training_cert_bullet := if certCond then certificates else none
    other_qualifications_bullet := if certCond then otherQualifications else none
    skills := formatCommaSeparated (processField data.skills)
    languages := formatCommaSeparated (processField data.languages)
    work_experience_1 :=
      processWorkExperience data.cv_format_type_full_1 data.job_duration_1 data.job_duties_1
    work_experience_2 :=
      processWorkExperience data.cv_format_type_full_2 data.job_duration_2 data.job_duties_2
    work_experience_3 :=
      processWorkExperience data.cv_format_type_full_3 data.job_duration_3 data.job_duties_3
    work_experience_4 :=
      processWorkExperience data.cv_format_type_full_4 data.job_duration_4 data.job_duties_4
    work_experience_5 :=
      processWorkExperience data.cv_format_type_full_5 data.job_duration_5 data.job_duties_5
    reference_1 := processField data.reference_1
    reference_2 := processField data.reference_2
    reference_3 := processField data.reference_3
    reference_4 := processField data.reference_4
    reference_5 := processField data.reference_5
    Additional_Experience_heading :=
      if truthyOpt additionalExp then some (String.toList "ADDITIONAL EXPERIENCE")
      else none
    additional_experience :=
      if truthyOpt additionalExp then additionalExp else none }

/-- Re-serialize a projection as a fresh raw record: each string-valued
projection key is carried back to the raw field it was derived from
(bullet keys back to certificates and other_qualifications, each
work-experience block back to its three raw slot fields). -/
def reserialize (p : ProcessedCVData) : CVData :=
  { full_name := p.full_name
    designation := p.designation
    phone := p.phone
    email := p.email
    physical_address := p.physical_address
    photo_url := p.photo_url
    splash_image := p.splash_image
    career_goal := p.career_goal
    education_matric := p.education_matric
    tertiary_education := p.tertiary_education
    certificates := p.training_cert_bullet
    other_qualifications := p.other_qualifications_bullet
    skills := p.skills
    languages := p.languages
    cv_format_type_full_1 := p.work_experience_1.map WorkExp.title
    job_duration_1 := p.work_experience_1.map WorkExp.duration
    job_duties_1 := p.work_experience_1.map WorkExp.duties
    cv_format_type_full_2 := p.work_experience_2.map WorkExp.title
    job_duration_2 := p.work_experience_2.map WorkExp.duration
    job_duties_2 := p.work_experience_2.map WorkExp.duties
    cv_format_type_full_3 := p.work_experience_3.map WorkExp.title
    job_duration_3 := p.work_experience_3.map WorkExp.duration
    job_duties_3 := p.work_experience_3.map WorkExp.duties
    cv_format_type_full_4 := p.work_experience_4.map WorkExp.title
    job_duration_4 := p.work_experience_4.map WorkExp.duration
    job_duties_4 := p.work_experience_4.map WorkExp.duties
    cv_format_type_full_5 := p.work_experience_5.map WorkExp.title
    job_duration_5 := p.work_experience_5.map WorkExp.duration
    job_duties_5 := p.work_experience_5.map WorkExp.duties
    reference_1 := p.reference_1
    reference_2 := p.reference_2
    reference_3 := p.reference_3
    reference_4 := p.reference_4
    reference_5 := p.reference_5
    additional_experience := p.additional_experience }

/-- The scalar raw fields with a directly corresponding scalar projection
key (work-experience sub-fields live inside slot blocks and are covered
by `processWorkExperience`). -/
inductive ScalarField where
  | full_name | designation | phone | email | physical_address
  | photo_url | splash_image | career_goal
  | education_matric | tertiary_education
  | certificates | other_qualifications | skills | languages
  | reference_1 | reference_2 | reference_3 | reference_4 | reference_5
  | additional_experience
deriving Repr, DecidableEq

/-- The raw value of a scalar field. -/
def rawGet : ScalarField → CVData → Option JStr
  | .full_name, d => d.full_name
  | .designation, d => d.designation
  | .phone, d => d.phone
  | .email, d => d.email
  | .physical_address, d => d.physical_address
  | .photo_url, d => d.photo_url
  | .splash_image, d => d.splash_image
  | .career_goal, d => d.career_goal
  | .education_matric, d => d.education_matric
  | .tertiary_education, d => d.tertiary_education
  | .certificates, d => d.certificates
  | .other_qualifications, d => d.other_qualifications
  | .skills, d => d.skills
  | .languages, d => d.languages
  | .reference_1, d => d.reference_1
  | .reference_2, d => d.reference_2
  | .reference_3, d => d.reference_3
  | .reference_4, d => d.reference_4
  | .reference_5, d => d.reference_5
  | .additional_experience, d => d.additional_experience

/-- The projection key corresponding to a scalar raw field. -/
def projGet : ScalarField → ProcessedCVData → Option JStr
  | .full_name, p => p.full_name
  | .designation, p => p.designation
  | .phone, p => p.phone
  | .email, p => p.email
  | .physical_address, p => p.physical_address
  | .photo_url, p => p.photo_url
  | .splash_image, p => p.splash_image
  | .career_goal, p => p.career_goal
  | .education_matric, p => p.education_matric
  | .tertiary_education, p => p.tertiary_education
  | .certificates, p => p.training_cert_bullet
  | .other_qualifications, p => p.other_qualifications_bullet
  | .skills, p => p.skills
  | .languages, p => p.languages
  | .reference_1, p => p.reference_1
  | .reference_2, p => p.reference_2
  | .reference_3, p => p.reference_3
  | .reference_4, p => p.reference_4
  | .reference_5, p => p.reference_5
  | .additional_experience, p => p.additional_experience

/-- The `ifExists` Handlebars helper from pdf-generator.service.ts,
restricted to optional string values: truthy, not the empty string, not
the literal at-sign and not case-insensitively none. -/
def ifExists : Option JStr → Bool
  | none => false
  | some s =>
    !s.isEmpty && s ≠ ['@'] && toLowerStr s ≠ String.toList "none"

/-- Outcome of the render driver: the surfaced result, the number of
attempts performed, and the recorded lower-level causes (one `logger.warn`
per caught failure). -/
structure GenResult (E B : Type) where
  result : Except String B
  attemptsMade : Nat
  causes : List E

/-- The single user-facing message thrown when all attempts fail. -/
def exhaustedMessage : String := "Failed to generate PDF. Please try again later."

/-- The message of the unreachable throw after the while loop. -/
def fallbackMessage : String := "Failed to generate PDF"

/-- The while loop of `PDFGeneratorService.generatePDF`.  `attemptFn n` is
the outcome of the n-th execution of `generatePDFInternal` (1-indexed);
`remaining` counts the loop iterations still allowed
(`maxAttempts - attempts`), so `remaining = 0` after a failed attempt is
exactly the source's `attempts >= maxAttempts` exhaustion check.  The
backoff sleeps between attempts have no effect on the result and are not
modelled. -/
def generatePDFGo {E B : Type} (attemptFn : Nat → Except E B) :
    Nat → Nat → List E → GenResult E B
  | 0, attempts, causes => ⟨Except.error fallbackMessage, attempts, causes⟩
  | remaining + 1, attempts, causes =>
    match attemptFn (attempts + 1) with
    | Except.ok pdf => ⟨Except.ok pdf, attempts + 1, causes⟩
    | Except.error e =>
      if remaining = 0 then
        ⟨Except.error exhaustedMessage, attempts + 1, causes ++ [e]⟩
      else generatePDFGo attemptFn remaining (attempts + 1) (causes ++ [e])

/-- `PDFGeneratorService.generatePDF` with `config.pdfRetryAttempts =
retryAttempts`: `maxAttempts = retryAttempts + 1`. -/
def generatePDF {E B : Type} (retryAttempts : Nat) (attemptFn : Nat → Except E B) :
    GenResult E B :=
  generatePDFGo attemptFn (retryAttempts + 1) 0 []

/-! ### Lemmas about trimming -/

theorem head?_dropWhile_not_ws {l : JStr} {c : Char}
    (h : (l.dropWhile isWS).head? = some c) : isWS c = false := by
  induction l with
  | nil => simp at h
  | cons a as ih =>
    by_cases ha : isWS a
    · rw [List.dropWhile_cons_of_pos ha] at h
      exact ih h
    · rw [List.dropWhile_cons_of_neg ha] at h
      simp only [List.head?_cons, Option.some.injEq] at h
      subst h
      exact Bool.eq_false_iff.mpr ha

theorem jsTrim_head_not_ws {l : JStr} {c : Char}
    (h : (jsTrim l).head? = some c) : isWS c = false := by
  unfold jsTrim at h
  obtain ⟨t, ht⟩ := List.rdropWhile_prefix isWS (l.dropWhile isWS)
  apply head?_dropWhile_not_ws (l := l)
  rw [← ht, List.head?_append, h]
  rfl

theorem jsTrim_getLast_not_ws {l : JStr} {c : Char}
    (h : (jsTrim l).getLast? = some c) : isWS c = false := by
  have hne : jsTrim l ≠ [] := by
    intro hnil
    rw [hnil] at h
    simp at h
  have hlast := List.rdropWhile_last_not isWS (l.dropWhile isWS)
    (by unfold jsTrim at hne; exact hne)
  rw [List.getLast?_eq_getLast _ hne] at h
  have : c = (jsTrim l).getLast hne := by
    exact (Option.some.injEq _ _).mp h.symm
  subst this
  exact Bool.eq_false_iff.mpr hlast

theorem jsTrim_eq_self {l : JStr}
    (hh : ∀ c, l.head? = some c → isWS c = false)
    (hl : ∀ c, l.getLast? = some c → isWS c = false) :
    jsTrim l = l := by
  have h1 : l.dropWhile isWS = l := by
    cases l with
    | nil => rfl
    | cons a as =>
      have := hh a (by rfl)
      rw [List.dropWhile_cons_of_neg (by simp [this])]
  unfold jsTrim
  rw [h1]
  cases hln : l with
  | nil => rfl
  | cons a as =>
    rw [← hln]
    apply List.rdropWhile_eq_self_iff.mpr
    intro hne
    have := hl (l.getLast hne) (List.getLast?_eq_getLast _ hne)
    simp [this]

theorem jsTrim_idem (l : JStr) : jsTrim (jsTrim l) = jsTrim l :=
  jsTrim_eq_self (fun _ h => jsTrim_head_not_ws h)
    (fun _ h => jsTrim_getLast_not_ws h)

theorem jsTrim_eq_nil_iff {l : JStr} :
    jsTrim l = [] ↔ ∀ c ∈ l, isWS c = true := by
  unfold jsTrim
  rw [List.rdropWhile_eq_nil_iff]
  constructor
  · intro h c hc
    have hsplit := List.takeWhile_append_dropWhile (p := isWS) (l := l)
    rw [← hsplit] at hc
    rcases List.mem_append.mp hc with h1 | h2
    · exact List.mem_takeWhile_imp h1
    · exact h _ h2
  · intro h c hc
    exact h c ((List.dropWhile_suffix isWS).sublist.mem hc)

/-! ### Lemmas about `processField` -/

theorem isEmptyStr_jsTrim (l : JStr) : isEmptyStr (jsTrim l) = isEmptyStr l := by
  simp only [isEmptyStr, jsTrim_idem]

theorem processField_eq_none_iff {v : Option JStr} :
    processField v = none ↔ isEmptyOpt v = true := by
  cases v with
  | none => simp [processField, isEmptyOpt]
  | some s =>
    by_cases he : isEmptyStr s
    · simp [processField, he, isEmptyOpt]
    · have hne : (jsTrim s).isEmpty = false := by
        apply List.isEmpty_eq_false.mpr
        intro hnil
        apply he
        simp [isEmptyStr, hnil]
      simp [processField, he, hne, isEmptyOpt]

theorem processField_some_spec {v : Option JStr} {w : JStr}
    (h : processField v = some w) :
    w = jsTrim (v.getD []) ∧ jsTrim w = w ∧ w ≠ [] ∧ isEmptyStr w = false := by
  cases v with
  | none => simp [processField] at h
  | some s =>
    by_cases he : isEmptyStr s
    · simp [processField, he] at h
    · by_cases hn : (jsTrim s).isEmpty
      · simp [processField, he, hn] at h
      · simp only [processField, he, Bool.false_eq_true, if_false, hn, ite_false,
          Option.some.injEq] at h
        subst h
        refine ⟨rfl, jsTrim_idem s, ?_, ?_⟩
        · exact fun hnil => hn (List.isEmpty_iff.mpr hnil)
        · rw [isEmptyStr_jsTrim]
          exact Bool.eq_false_iff.mpr he

theorem processField_stable {v : Option JStr} {w : JStr}
    (h : processField v = some w) : processField (some w) = some w := by
  obtain ⟨-, htrim, hne, hemp⟩ := processField_some_spec h
  simp [processField, hemp, htrim, List.isEmpty_iff, hne]

theorem processField_never_blank {v : Option JStr} :
    processField v ≠ some [] := by
  intro h
  obtain ⟨-, -, hne, -⟩ := processField_some_spec h
  exact hne rfl

theorem trimmed_head_not_ws {l : JStr} {c : Char} (ht : jsTrim l = l)
    (h : l.head? = some c) : isWS c = false :=
  jsTrim_head_not_ws (by rw [ht]; exact h)

theorem trimmed_getLast_not_ws {l : JStr} {c : Char} (ht : jsTrim l = l)
    (h : l.getLast? = some c) : isWS c = false :=
  jsTrim_getLast_not_ws (by rw [ht]; exact h)

theorem jsTrim_cons_ws {l : JStr} {c : Char} (h : isWS c = true) :
    jsTrim (c :: l) = jsTrim l := by
  unfold jsTrim
  rw [List.dropWhile_cons_of_pos h]

/-! ### Lemmas about `formatPhoneNumber` -/

theorem getLast?_cons_of_ne_nil {α : Type} {l : List α} {c : α} (h : l ≠ []) :
    (c :: l).getLast? = l.getLast? := by
  cases l with
  | nil => exact absurd rfl h
  | cons a as => exact List.getLast?_cons_cons

/-- A nonempty string starting with a plus sign and ending in a
non-whitespace character is neither whitespace-padded nor an emptiness
sentinel. -/
theorem plus_headed_trimmed {r : JStr}
    (hlast : ∀ c, ('+' :: r).getLast? = some c → isWS c = false) :
    jsTrim ('+' :: r) = '+' :: r := by
  apply jsTrim_eq_self
  · intro c hc
    simp only [List.head?_cons, Option.some.injEq] at hc
    subst hc
    decide
  · exact hlast

theorem isEmptyStr_plus_headed {r : JStr} (htrim : jsTrim ('+' :: r) = '+' :: r) :
    isEmptyStr ('+' :: r) = false := by
  simp only [isEmptyStr, htrim, toLowerStr, isPlaceholder, List.map_cons]
  cases r with
  | nil => decide
  | cons a as => simp [String.toList]

/-- Prepending non-whitespace characters to a trimmed string keeps it
trimmed, provided the first prepended character is non-whitespace and the
string that supplies the last character stays the same or the whole result
ends in a non-whitespace character. -/
theorem jsTrim_plus27 {t : JStr} (hlast : ∀ d, t.getLast? = some d → isWS d = false) :
    jsTrim ('+' :: '2' :: '7' :: t) = '+' :: '2' :: '7' :: t := by
  apply jsTrim_eq_self
  · intro c hc
    simp only [List.head?_cons, Option.some.injEq] at hc
    subst hc
    decide
  · intro d hd
    cases ht : t with
    | nil =>
      subst ht
      simp only [List.getLast?_cons_cons, List.getLast?_singleton,
        Option.some.injEq] at hd
      subst hd
      decide
    | cons a as =>
      subst ht
      rw [getLast?_cons_of_ne_nil (by simp), getLast?_cons_of_ne_nil (by simp)] at hd
      exact hlast d hd

theorem formatPhoneNumber_some_spec {v : Option JStr} {w : JStr}
    (h : formatPhoneNumber v = some w) :
    w.head? = some '+' ∧ jsTrim w = w := by
  cases v with
  | none => simp [formatPhoneNumber] at h
  | some s =>
    by_cases hs : s.isEmpty
    · simp [formatPhoneNumber, hs] at h
    · simp only [formatPhoneNumber, hs, Bool.false_eq_true, if_false] at h
      have hidem : jsTrim (jsTrim s) = jsTrim s := jsTrim_idem s
      have hlastTrim : ∀ d, (jsTrim s).getLast? = some d → isWS d = false :=
        fun d hd => jsTrim_getLast_not_ws hd
      by_cases hplus : (jsTrim s).head? = some '+'
      · rw [if_pos hplus] at h
        simp only [Option.some.injEq] at h
        subst h
        exact ⟨hplus, hidem⟩
      · rw [if_neg hplus] at h
        by_cases hzero : (jsTrim s).head? = some '0'
        · rw [if_pos hzero] at h
          simp only [Option.some.injEq] at h
          subst h
          refine ⟨rfl, jsTrim_plus27 ?_⟩
          intro d hd
          cases ht : jsTrim s with
          | nil => rw [ht] at hzero; simp at hzero
          | cons a as =>
            rw [ht] at hd
            simp only [List.tail_cons] at hd
            apply hlastTrim d
            rw [ht, getLast?_cons_of_ne_nil]
            · exact hd
            · intro hnil
              rw [hnil] at hd
              simp at hd
        · rw [if_neg hzero] at h
          simp only [Option.some.injEq] at h
          subst h
          exact ⟨rfl, jsTrim_plus27 hlastTrim⟩

theorem formatPhoneNumber_never_blank {v : Option JStr} :
    formatPhoneNumber v ≠ some [] := by
  intro h
  obtain ⟨hhead, -⟩ := formatPhoneNumber_some_spec h
  simp at hhead

/-- An output of `formatPhoneNumber` survives a second normalization pass
unchanged: it is re-accepted by `processField` and re-emitted by
`formatPhoneNumber`. -/
theorem formatPhoneNumber_stable {v : Option JStr} {w : JStr}
    (h : formatPhoneNumber v = some w) :
    formatPhoneNumber (processField (some w)) = some w := by
  obtain ⟨hhead, htrim⟩ := formatPhoneNumber_some_spec h
  obtain ⟨r, hr⟩ : ∃ r, w = '+' :: r := by
    cases w with
    | nil => simp at hhead
    | cons a as =>
      simp only [List.head?_cons, Option.some.injEq] at hhead
      subst hhead
      exact ⟨as, rfl⟩
  subst hr
  have hempty : isEmptyStr ('+' :: r) = false := isEmptyStr_plus_headed htrim
  have hpf : processField (some ('+' :: r)) = some ('+' :: r) := by
    simp [processField, hempty, htrim]
  rw [hpf]
  simp [formatPhoneNumber, htrim]

/-! ### Lemmas about `splitOnChar` and `joinChar` -/

theorem splitOnChar_ne_nil (sep : Char) (l : JStr) : splitOnChar sep l ≠ [] := by
  cases l with
  | nil => simp [splitOnChar]
  | cons c cs =>
    by_cases hc : c = sep
    · simp [splitOnChar, hc]
    · simp only [splitOnChar, hc, if_false]
      cases splitOnChar sep cs with
      | nil => simp
      | cons p ps => simp

theorem splitOnChar_of_not_mem {sep : Char} {l : JStr} (h : sep ∉ l) :
    splitOnChar sep l = [l] := by
  induction l with
  | nil => rfl
  | cons c cs ih =>
    have hc : ¬c = sep := fun hcc => h (hcc ▸ List.mem_cons_self c cs)
    have hcs : sep ∉ cs := fun hm => h (List.mem_cons_of_mem c hm)
    simp only [splitOnChar, hc, if_false, ih hcs]

theorem splitOnChar_append_sep {sep : Char} {x rest : JStr} (h : sep ∉ x) :
    splitOnChar sep (x ++ sep :: rest) = x :: splitOnChar sep rest := by
  induction x with
  | nil => simp [splitOnChar]
  | cons c cs ih =>
    have hc : ¬c = sep := fun hcc => h (hcc ▸ List.mem_cons_self c cs)
    have hcs : sep ∉ cs := fun hm => h (List.mem_cons_of_mem c hm)
    rw [List.cons_append]
    simp only [splitOnChar, hc, if_false]
    rw [ih hcs]

theorem mem_of_mem_splitOnChar {sep : Char} {l p : JStr} {c : Char}
    (hp : p ∈ splitOnChar sep l) (hc : c ∈ p) : c ∈ l := by
  induction l generalizing p with
  | nil =>
    simp only [splitOnChar, List.mem_singleton] at hp
    subst hp
    exact absurd hc (List.not_mem_nil c)
  | cons a as ih =>
    by_cases ha : a = sep
    · simp only [splitOnChar, ha, if_true, List.mem_cons] at hp
      rcases hp with hp | hp
      · subst hp; exact absurd hc (List.not_mem_nil c)
      · exact List.mem_cons_of_mem _ (ih hp hc)
    · simp only [splitOnChar, ha, if_false] at hp
      cases hsp : splitOnChar sep as with
      | nil => exact absurd hsp (splitOnChar_ne_nil sep as)
      | cons q qs =>
        rw [hsp] at hp
        simp only [List.mem_cons] at hp
        rcases hp with hp | hp
        · subst hp
          rcases List.mem_cons.mp hc with hcc | hcq
          · exact List.mem_cons.mpr (Or.inl hcc)
          · exact List.mem_cons_of_mem _ (ih (hsp ▸ List.mem_cons_self q qs) hcq)
        · exact List.mem_cons_of_mem _ (ih (hsp ▸ List.mem_cons_of_mem q hp) hc)

theorem sep_not_mem_splitOnChar {sep : Char} {l p : JStr}
    (hp : p ∈ splitOnChar sep l) : sep ∉ p := by
  induction l generalizing p with
  | nil =>
    simp only [splitOnChar, List.mem_singleton] at hp
    subst hp
    exact List.not_mem_nil sep
  | cons a as ih =>
    by_cases ha : a = sep
    · simp only [splitOnChar, ha, if_true, List.mem_cons] at hp
      rcases hp with hp | hp
      · subst hp; exact List.not_mem_nil sep
      · exact ih hp
    · simp only [splitOnChar, ha, if_false] at hp
      cases hsp : splitOnChar sep as with
      | nil => exact absurd hsp (splitOnChar_ne_nil sep as)
      | cons q qs =>
        rw [hsp] at hp
        simp only [List.mem_cons] at hp
        rcases hp with hp | hp
        · subst hp
          intro hmem
          rcases List.mem_cons.mp hmem with hcc | hcq
          · exact ha hcc.symm
          · exact ih (hsp ▸ List.mem_cons_self q qs) hcq
        · exact ih (hsp ▸ List.mem_cons_of_mem q hp)

theorem joinChar_ne_nil {sep : Char} {items : List JStr} (hne : items ≠ [])
    (hall : ∀ i ∈ items, i ≠ []) : joinChar sep items ≠ [] := by
  cases items with
  | nil => exact absurd rfl hne
  | cons i rest =>
    cases rest with
    | nil => exact hall i (List.mem_cons_self i [])
    | cons j rest' =>
      simp only [joinChar]
      intro hcontra
      have := List.append_eq_nil.mp hcontra
      exact absurd this.2 (by simp)

theorem joinChar_head? {sep : Char} {i : JStr} {rest : List JStr} (hi : i ≠ []) :
    (joinChar sep (i :: rest)).head? = i.head? := by
  cases rest with
  | nil => rfl
  | cons j rest' =>
    simp only [joinChar]
    rw [List.head?_append]
    cases hh : i.head? with
    | none => exact absurd (List.head?_eq_none_iff.mp hh) hi
    | some c => rfl

theorem joinChar_getLast? {sep : Char} {items : List JStr} {last : JStr}
    (hlast : items.getLast? = some last) (hall : ∀ i ∈ items, i ≠ []) :
    (joinChar sep items).getLast? = last.getLast? := by
  induction items generalizing last with
  | nil => simp at hlast
  | cons i rest ih =>
    cases rest with
    | nil =>
      simp only [List.getLast?_singleton, Option.some.injEq] at hlast
      subst hlast
      rfl
    | cons j rest' =>
      rw [getLast?_cons_of_ne_nil (l := j :: rest') (by simp)] at hlast
      have hrec := ih hlast (fun x hx => hall x (List.mem_cons_of_mem i hx))
      have hjoin : joinChar sep (j :: rest') ≠ [] :=
        joinChar_ne_nil (by simp) (fun x hx => hall x (List.mem_cons_of_mem i hx))
      simp only [joinChar]
      rw [List.getLast?_append_cons, getLast?_cons_of_ne_nil hjoin, hrec]

theorem mem_joinChar {sep : Char} {items : List JStr} {c : Char}
    (h : c ∈ joinChar sep items) : c = sep ∨ ∃ i ∈ items, c ∈ i := by
  induction items with
  | nil => simp [joinChar] at h
  | cons i rest ih =>
    cases rest with
    | nil =>
      right
      exact ⟨i, List.mem_cons_self i [], h⟩
    | cons j rest' =>
      simp only [joinChar, List.mem_append, List.mem_cons] at h
      rcases h with h | h | h
      · right; exact ⟨i, List.mem_cons_self _ _, h⟩
      · left; exact h
      · rcases ih h with hc | ⟨x, hx, hcx⟩
        · left; exact hc
        · right; exact ⟨x, List.mem_cons_of_mem i hx, hcx⟩

/-! ### Lemmas about `replaceAmp` -/

theorem amp_not_mem_replaceAmpGo {l buf : JStr} {m : Bool} (hbuf : '&' ∉ buf) :
    '&' ∉ replaceAmpGo m buf l := by
  induction l generalizing m buf with
  | nil => simpa [replaceAmpGo] using hbuf
  | cons c cs ih =>
    simp only [replaceAmpGo]
    by_cases hws : isWS c
    · rw [if_pos hws]
      by_cases hm : m
      · simp only [hm, if_true]
        exact ih (by simp)
      · simp only [hm, if_false, Bool.false_eq_true]
        apply ih
        intro hmem
        rcases List.mem_append.mp hmem with h1 | h2
        · exact hbuf h1
        · simp only [List.mem_singleton] at h2
          subst h2
          revert hws
          decide
    · rw [if_neg hws]
      by_cases hamp : c = '&'
      · rw [if_pos hamp]
        intro hmem
        rcases List.mem_cons.mp hmem with h1 | h2
        · exact absurd h1 (by decide)
        · rcases List.mem_cons.mp h2 with h3 | h4
          · exact absurd h3 (by decide)
          · exact ih (by simp) h4
      · rw [if_neg hamp]
        intro hmem
        rcases List.mem_append.mp hmem with h1 | h2
        · exact hbuf h1
        · rcases List.mem_cons.mp h2 with h3 | h4
          · exact hamp h3.symm
          · exact ih (by simp) h4

theorem amp_not_mem_replaceAmp (l : JStr) : '&' ∉ replaceAmp l :=
  amp_not_mem_replaceAmpGo (by simp)

theorem mem_replaceAmpGo {l buf : JStr} {m : Bool} {c : Char}
    (h : c ∈ replaceAmpGo m buf l) : c ∈ buf ∨ c ∈ l ∨ c = ',' ∨ c = ' ' := by
  induction l generalizing m buf with
  | nil =>
    simp only [replaceAmpGo] at h
    exact Or.inl h
  | cons a as ih =>
    simp only [replaceAmpGo] at h
    by_cases hws : isWS a
    · rw [if_pos hws] at h
      by_cases hm : m
      · rw [if_pos hm] at h
        rcases ih h with h1 | h2 | h3
        · exact absurd h1 (List.not_mem_nil c)
        · exact Or.inr (Or.inl (List.mem_cons_of_mem a h2))
        · exact Or.inr (Or.inr h3)
      · rw [if_neg hm] at h
        rcases ih h with h1 | h2 | h3
        · rcases List.mem_append.mp h1 with hb | ha
          · exact Or.inl hb
          · simp only [List.mem_singleton] at ha
            exact Or.inr (Or.inl (by rw [ha]; exact List.mem_cons_self _ _))
        · exact Or.inr (Or.inl (List.mem_cons_of_mem a h2))
        · exact Or.inr (Or.inr h3)
    · rw [if_neg hws] at h
      by_cases hamp : a = '&'
      · rw [if_pos hamp] at h
        rcases List.mem_cons.mp h with h1 | h2
        · exact Or.inr (Or.inr (Or.inl h1))
        · rcases List.mem_cons.mp h2 with h3 | h4
          · exact Or.inr (Or.inr (Or.inr h3))
          · rcases ih h4 with h5 | h6 | h7
            · exact absurd h5 (List.not_mem_nil c)
            · exact Or.inr (Or.inl (List.mem_cons_of_mem a h6))
            · exact Or.inr (Or.inr h7)
      · rw [if_neg hamp] at h
        rcases List.mem_append.mp h with h1 | h2
        · exact Or.inl h1
        · rcases List.mem_cons.mp h2 with h3 | h4
          · exact Or.inr (Or.inl (by rw [h3]; exact List.mem_cons_self _ _))
          · rcases ih h4 with h5 | h6 | h7
            · exact absurd h5 (List.not_mem_nil c)
            · exact Or.inr (Or.inl (List.mem_cons_of_mem a h6))
            · exact Or.inr (Or.inr h7)

theorem replaceAmpGo_no_amp {l : JStr} (h : '&' ∉ l) (buf : JStr) :
    replaceAmpGo false buf l = buf ++ l := by
  induction l generalizing buf with
  | nil => simp [replaceAmpGo]
  | cons c cs ih =>
    have hc : ¬c = '&' := fun hcc => h (hcc ▸ List.mem_cons_self c cs)
    have hcs : '&' ∉ cs := fun hm => h (List.mem_cons_of_mem c hm)
    simp only [replaceAmpGo]
    by_cases hws : isWS c
    · rw [if_pos hws]
      simp only [Bool.false_eq_true, if_false]
      rw [ih hcs]
      simp
    · rw [if_neg hws, if_neg hc, ih hcs]
      simp

theorem replaceAmp_no_amp {l : JStr} (h : '&' ∉ l) : replaceAmp l = l :=
  replaceAmpGo_no_amp h []

theorem replaceAmpGo_clean_prefix {x : JStr} (hamp : '&' ∉ x) (hne : x ≠ [])
    (hlast : ∀ d, x.getLast? = some d → isWS d = false) (buf t : JStr) :
    replaceAmpGo false buf (x ++ t) = buf ++ x ++ replaceAmpGo false [] t := by
  induction x generalizing buf with
  | nil => exact absurd rfl hne
  | cons c cs ih =>
    have hc : ¬c = '&' := fun hcc => hamp (hcc ▸ List.mem_cons_self c cs)
    have hcs : '&' ∉ cs := fun hm => hamp (List.mem_cons_of_mem c hm)
    by_cases hcsnil : cs = []
    · subst hcsnil
      have hcws : isWS c = false := hlast c rfl
      simp only [List.cons_append, List.nil_append, replaceAmpGo, hcws,
        Bool.false_eq_true, if_false, if_neg hc]
      simp
    · have hlast2 : ∀ d, cs.getLast? = some d → isWS d = false := by
        intro d hd
        apply hlast d
        rw [getLast?_cons_of_ne_nil hcsnil]
        exact hd
      have ihcs := ih hcs hcsnil hlast2
      simp only [List.cons_append, replaceAmpGo, List.append_eq]
      by_cases hws : isWS c
      · rw [if_pos hws]
        simp only [Bool.false_eq_true, if_false]
        rw [ihcs]
        simp
      · rw [if_neg hws, if_neg hc, ihcs]
        simp

theorem replaceAmpGo_true_head {l : JStr} {c : Char} (hws : isWS c = false)
    (hamp : c ≠ '&') (cs : JStr) (h : l = c :: cs) :
    replaceAmpGo true [] l = replaceAmpGo false [] l := by
  subst h
  simp only [replaceAmpGo, hws, Bool.false_eq_true, if_false, if_neg hamp]

/-! ### Structure of `formatCommaSeparated` outputs -/

theorem jsTrim_mem_subset {l : JStr} {c : Char} (h : c ∈ jsTrim l) : c ∈ l := by
  unfold jsTrim at h
  have h1 : c ∈ List.dropWhile isWS l :=
    (List.rdropWhile_prefix isWS (List.dropWhile isWS l)).sublist.mem h
  exact (List.dropWhile_suffix isWS).sublist.mem h1

/-- An item is clean when it is nonempty, trimmed, and free of commas,
ampersands and newlines. -/
def CleanItem (i : JStr) : Prop :=
  i ≠ [] ∧ jsTrim i = i ∧ ',' ∉ i ∧ '&' ∉ i ∧ '\n' ∉ i

instance cleanItemDecidable (i : JStr) : Decidable (CleanItem i) := by
  unfold CleanItem
  infer_instance

theorem fCS_some_spec {x : Option JStr} {v : JStr}
    (h : formatCommaSeparated x = some v) :
    (x = some v ∧ '\n' ∈ v ∧ v ≠ []) ∨
    (∃ items, items ≠ [] ∧ v = joinChar '\n' items ∧ ∀ i ∈ items, CleanItem i) := by
  cases x with
  | none => simp [formatCommaSeparated] at h
  | some value =>
    by_cases hemp : value.isEmpty
    · simp [formatCommaSeparated, hemp] at h
    · by_cases hnl : value.contains '\n'
      · left
        simp only [formatCommaSeparated, hemp, Bool.false_eq_true, if_false,
          hnl, if_true, Option.some.injEq] at h
        subst h
        refine ⟨rfl, List.elem_iff.mp hnl, ?_⟩
        intro hval
        rw [hval] at hemp
        exact hemp rfl
      · right
        simp only [formatCommaSeparated, hemp, Bool.false_eq_true, if_false,
          hnl, ite_false] at h
        set items :=
          ((splitOnChar ',' (replaceAmp value)).map jsTrim).filter
            (fun i => !i.isEmpty) with hitems
        by_cases hit : items.isEmpty
        · rw [if_neg (by simp [hit])] at h
          exact absurd h (by simp)
        · rw [if_pos (by simp [hit])] at h
          simp only [Option.some.injEq] at h
          refine ⟨items, fun hnil => hit (by simp [hnil]), h.symm, ?_⟩
          intro i hi
          have hfil := List.mem_filter.mp hi
          obtain ⟨p, hp, hjp⟩ := List.mem_map.mp hfil.1
          have hclean₁ : i ≠ [] := by
            intro hnil
            rw [hnil] at hfil
            simp at hfil
          have htr : jsTrim i = i := by rw [← hjp]; exact jsTrim_idem p
          have hsubp : ∀ c ∈ i, c ∈ p := fun c hc =>
            jsTrim_mem_subset (hjp ▸ hc)
          refine ⟨hclean₁, htr, ?_, ?_, ?_⟩
          · intro hmem
            exact sep_not_mem_splitOnChar hp (hsubp ',' hmem)
          · intro hmem
            exact amp_not_mem_replaceAmp value
              (mem_of_mem_splitOnChar hp (hsubp '&' hmem))
          · intro hmem
            have hmem2 := mem_of_mem_splitOnChar hp (hsubp '\n' hmem)
            rcases mem_replaceAmpGo hmem2 with h1 | h2 | h3 | h4
            · exact List.not_mem_nil _ h1
            · exact hnl (List.elem_iff.mpr h2)
            · exact absurd h3 (by decide)
            · exact absurd h4 (by decide)

theorem joinChar_trimmed {items : List JStr} (hne : items ≠ [])
    (hall : ∀ i ∈ items, i ≠ [] ∧ jsTrim i = i) :
    jsTrim (joinChar '\n' items) = joinChar '\n' items := by
  cases items with
  | nil => exact absurd rfl hne
  | cons i rest =>
    have hi := hall i (List.mem_cons_self i rest)
    apply jsTrim_eq_self
    · intro c hc
      rw [joinChar_head? hi.1] at hc
      exact trimmed_head_not_ws hi.2 hc
    · intro c hc
      obtain ⟨last, hlast⟩ : ∃ last, (i :: rest).getLast? = some last := by
        cases hrl : (i :: rest).getLast? with
        | none => exact absurd (List.getLast?_eq_none_iff.mp hrl) (by simp)
        | some z => exact ⟨z, rfl⟩
      have hlmem : last ∈ i :: rest := List.mem_of_mem_getLast? hlast
      rw [joinChar_getLast? hlast (fun x hx => (hall x hx).1)] at hc
      exact trimmed_getLast_not_ws (hall last hlmem).2 hc

/-- An output of `formatCommaSeparated ∘ processField` that is not itself
classified empty survives a second normalization pass unchanged. -/
theorem fCS_stable {x : Option JStr} {v : JStr}
    (h : formatCommaSeparated (processField x) = some v)
    (hv : isEmptyStr v = false) :
    formatCommaSeparated (processField (some v)) = some v := by
  rcases fCS_some_spec h with ⟨hx, hnl, hne⟩ | ⟨items, hine, hjoin, hclean⟩
  · have hpf : processField (some v) = some v := processField_stable hx
    rw [hpf]
    simp only [formatCommaSeparated]
    rw [if_neg (by simp [hne]), if_pos (List.elem_iff.mpr hnl)]
  · have hvne : v ≠ [] := by
      rw [hjoin]
      exact joinChar_ne_nil hine (fun i hi => (hclean i hi).1)
    have hvtrim : jsTrim v = v := by
      rw [hjoin]
      exact joinChar_trimmed hine (fun i hi => ⟨(hclean i hi).1, (hclean i hi).2.1⟩)
    have hpf : processField (some v) = some v := by
      simp [processField, hv, hvtrim, List.isEmpty_eq_false.mpr hvne]
    rw [hpf]
    cases items with
    | nil => exact absurd rfl hine
    | cons i rest =>
      cases rest with
      | nil =>
        have hi := hclean i (List.mem_cons_self i [])
        have hvi : v = i := hjoin
        subst hvi
        simp only [formatCommaSeparated]
        rw [if_neg (by simp [hvne])]
        rw [if_neg (by
          intro hcon
          exact hi.2.2.2.2 (List.elem_iff.mp hcon))]
        rw [replaceAmp_no_amp hi.2.2.2.1,
          splitOnChar_of_not_mem hi.2.2.1]
        simp only [List.map_cons, List.map_nil, hi.2.1]
        rw [List.filter_cons_of_pos (by simp [List.isEmpty_eq_false.mpr hi.1])]
        simp [joinChar]
      | cons j rest' =>
        have hmem : '\n' ∈ v := by
          rw [hjoin]
          simp only [joinChar]
          exact List.mem_append.mpr (Or.inr (List.mem_cons_self _ _))
        simp only [formatCommaSeparated]
        rw [if_neg (by simp [hvne]), if_pos (List.elem_iff.mpr hmem)]

/-! ### Lemmas about work experience and education -/

theorem processField_blank : processField (some []) = none := by decide

theorem truthyOpt_processField (v : Option JStr) :
    truthyOpt (processField v) = (processField v).isSome := by
  cases h : processField v with
  | none => rfl
  | some w =>
    obtain ⟨-, -, hne, -⟩ := processField_some_spec h
    simp [truthyOpt, List.isEmpty_eq_false.mpr hne]

theorem processField_getD_stable (x : Option JStr) :
    processField (some ((processField x).getD [])) = processField x := by
  cases h : processField x with
  | none => simpa using processField_blank
  | some w => simpa using processField_stable h

theorem processWorkExperience_eq_none_iff {t d u : Option JStr} :
    processWorkExperience t d u = none ↔
      processField t = none ∧ processField d = none ∧ processField u = none := by
  simp only [processWorkExperience, truthyOpt_processField]
  cases ht : processField t with
  | some w => simp [ht]
  | none =>
    cases hd : processField d with
    | some w => simp [hd]
    | none =>
      cases hu : processField u with
      | some w => simp [hu]
      | none => simp

theorem processWorkExperience_some_spec {t d u : Option JStr} {w : WorkExp}
    (h : processWorkExperience t d u = some w) :
    w.title = (processField t).getD [] ∧
    w.duration = (processField d).getD [] ∧
    w.duties = (processField u).getD [] := by
  simp only [processWorkExperience] at h
  split at h
  · exact absurd h (by simp)
  · simp only [Option.some.injEq] at h
    subst h
    exact ⟨rfl, rfl, rfl⟩

theorem processWorkExperience_stable {t d u : Option JStr} {w : WorkExp}
    (h : processWorkExperience t d u = some w) :
    processWorkExperience (some w.title) (some w.duration) (some w.duties) = some w := by
  obtain ⟨h1, h2, h3⟩ := processWorkExperience_some_spec h
  have e1 : processField (some w.title) = processField t := by
    rw [h1]; exact processField_getD_stable t
  have e2 : processField (some w.duration) = processField d := by
    rw [h2]; exact processField_getD_stable d
  have e3 : processField (some w.duties) = processField u := by
    rw [h3]; exact processField_getD_stable u
  simp only [processWorkExperience] at h
  simp only [processWorkExperience]
  rw [e1, e2, e3]
  split at h
  · exact absurd h (by simp)
  · rw [if_neg (by assumption)]
    exact h

/-! ### Lemmas about `formatEducation` -/

theorem formatEducation_eq_none_of_empty {x : Option JStr}
    (h : isEmptyOpt x = true) : formatEducation x = none := by
  have : processField x = none := processField_eq_none_iff.mpr h
  simp [formatEducation, this]

theorem formatEducation_some_spec {x : Option JStr} {v : JStr}
    (h : formatEducation x = some v) :
    processField x = some v ∧
    ((splitOnChar '\n' v).filter (fun line => !(jsTrim line).isEmpty)).isEmpty = false := by
  cases hpf : processField x with
  | none => rw [formatEducation, hpf] at h; exact absurd h (by simp)
  | some value =>
    rw [formatEducation, hpf] at h
    simp only at h
    by_cases hsp :
        ((splitOnChar '\n' value).filter (fun line => !(jsTrim line).isEmpty)).isEmpty
    · rw [if_pos hsp] at h
      exact absurd h (by simp)
    · rw [if_neg hsp] at h
      simp only [Option.some.injEq] at h
      refine ⟨?_, ?_⟩
      · exact congrArg some h
      · rw [← h]
        exact Bool.eq_false_iff.mpr hsp

theorem formatEducation_stable {x : Option JStr} {v : JStr}
    (h : formatEducation x = some v) : formatEducation (some v) = some v := by
  obtain ⟨hpf, hlines⟩ := formatEducation_some_spec h
  have hpf2 : processField (some v) = some v := processField_stable hpf
  rw [formatEducation, hpf2]
  simp only
  rw [if_neg (by simp [hlines])]

/-! ### Pipeline idempotence helpers -/

theorem processField_idem (x : Option JStr) :
    processField (processField x) = processField x := by
  cases h : processField x with
  | none => rfl
  | some w => exact processField_stable h

theorem truthyOpt_formatPhoneNumber (x : Option JStr) :
    truthyOpt (formatPhoneNumber x) = (formatPhoneNumber x).isSome := by
  cases h : formatPhoneNumber x with
  | none => rfl
  | some w =>
    have hne : w ≠ [] := by
      intro hnil
      have := (formatPhoneNumber_some_spec h).1
      rw [hnil] at this
      simp at this
    simp [truthyOpt, List.isEmpty_eq_false.mpr hne]

theorem phone_pipeline_idem (x : Option JStr) :
    formatPhoneNumber (processField (formatPhoneNumber (processField x))) =
      formatPhoneNumber (processField x) := by
  cases h : formatPhoneNumber (processField x) with
  | none =>
    have : processField (none : Option JStr) = none := rfl
    simp [this, formatPhoneNumber]
  | some w => exact formatPhoneNumber_stable h

theorem formatEducation_idem (x : Option JStr) :
    formatEducation (formatEducation x) = formatEducation x := by
  cases h : formatEducation x with
  | none =>
    have : processField (none : Option JStr) = none := rfl
    simp [formatEducation, this]
  | some w => exact formatEducation_stable h

theorem workExp_pipeline_idem (t d u : Option JStr) :
    processWorkExperience
      ((processWorkExperience t d u).map WorkExp.title)
      ((processWorkExperience t d u).map WorkExp.duration)
      ((processWorkExperience t d u).map WorkExp.duties) =
    processWorkExperience t d u := by
  cases h : processWorkExperience t d u with
  | none =>
    simp only [Option.map_none']
    apply processWorkExperience_eq_none_iff.mpr
    exact ⟨rfl, rfl, rfl⟩
  | some w =>
    simp only [Option.map_some']
    exact processWorkExperience_stable h

theorem passPhotoUrl_some_spec {x : Option JStr} {v : JStr}
    (h : passPhotoUrl x = some v) : v = jsTrim (x.getD []) := by
  cases x with
  | none => simp [passPhotoUrl] at h
  | some s =>
    by_cases hs : s.isEmpty
    · simp [passPhotoUrl, hs] at h
    · simp only [passPhotoUrl, hs, Bool.not_false, if_true, Option.some.injEq] at h
      rw [← h]
      rfl

theorem passPhotoUrl_stable {x : Option JStr} {v : JStr}
    (h : passPhotoUrl x = some v) (hne : v ≠ []) : passPhotoUrl (some v) = some v := by
  have hv := passPhotoUrl_some_spec h
  have htrim : jsTrim v = v := by rw [hv]; exact jsTrim_idem _
  simp [passPhotoUrl, List.isEmpty_eq_false.mpr hne, htrim]

/-! ### Claim theorems -/

/-- Claim C7: for every present phone value (an output of `processField`,
hence already trimmed): a value starting with a plus is kept unchanged, a
value starting with a zero has that zero replaced by the +27 prefix, any
other value gets the prefix prepended verbatim; the degenerate input "0"
alone still undergoes prefix substitution with no minimum-length check. -/
theorem claim_C7 (s t : JStr) (hp : processField (some s) = some t) :
    (t.head? = some '+' → formatPhoneNumber (some t) = some t) ∧
    (t.head? = some '0' →
      formatPhoneNumber (some t) = some ('+' :: '2' :: '7' :: t.tail)) ∧
    (t.head? ≠ some '+' → t.head? ≠ some '0' →
      formatPhoneNumber (some t) = some ('+' :: '2' :: '7' :: t)) ∧
    formatPhoneNumber (some ['0']) = some ['+', '2', '7'] := by
  obtain ⟨-, htrim, hne, -⟩ := processField_some_spec hp
  have hisE : t.isEmpty = false := List.isEmpty_eq_false.mpr hne
  refine ⟨?_, ?_, ?_, by decide⟩
  · intro hh
    simp [formatPhoneNumber, hisE, htrim, hh]
  · intro hh
    have hnp : ¬t.head? = some '+' := by rw [hh]; simp
    simp [formatPhoneNumber, hisE, htrim, hh, hnp]
  · intro h1 h2
    simp [formatPhoneNumber, hisE, htrim, h1, h2]

theorem claim_C7_witness :
    formatPhoneNumber (some (String.toList "0123456789")) =
      some ('+' :: '2' :: '7' :: (String.toList "0123456789").tail) :=
  ((claim_C7 (String.toList "0123456789") (String.toList "0123456789")
    (by decide)).2.1) (by decide)

/-- The per-slot property asserted by claim C8: the slot is absent exactly
when all three raw sub-fields are classified empty; in an included slot
each sub-field carries its processed value, with classified-empty
sub-fields emitted as the empty string. -/
def SlotOK (slot : Option WorkExp) (t du dd : Option JStr) : Prop :=
  (slot = none ↔
    (isEmptyOpt t = true ∧ isEmptyOpt du = true ∧ isEmptyOpt dd = true)) ∧
  (∀ w, slot = some w →
    w.title = (processField t).getD [] ∧
    w.duration = (processField du).getD [] ∧
    w.duties = (processField dd).getD [] ∧
    (isEmptyOpt t = true → w.title = []) ∧
    (isEmptyOpt du = true → w.duration = []) ∧
    (isEmptyOpt dd = true → w.duties = []))

theorem workSlot_ok (t du dd : Option JStr) :
    SlotOK (processWorkExperience t du dd) t du dd := by
  constructor
  · rw [processWorkExperience_eq_none_iff]
    constructor
    · intro ⟨h1, h2, h3⟩
      exact ⟨processField_eq_none_iff.mp h1, processField_eq_none_iff.mp h2,
        processField_eq_none_iff.mp h3⟩
    · intro ⟨h1, h2, h3⟩
      exact ⟨processField_eq_none_iff.mpr h1, processField_eq_none_iff.mpr h2,
        processField_eq_none_iff.mpr h3⟩
  · intro w hw
    obtain ⟨e1, e2, e3⟩ := processWorkExperience_some_spec hw
    refine ⟨e1, e2, e3, ?_, ?_, ?_⟩
    · intro hemp
      rw [e1, processField_eq_none_iff.mpr hemp]
      rfl
    · intro hemp
      rw [e2, processField_eq_none_iff.mpr hemp]
      rfl
    · intro hemp
      rw [e3, processField_eq_none_iff.mpr hemp]
      rfl

/-- Claim C8: for each of the 5 work-experience slots of the projection, a
slot appears iff at least one of its three sub-fields is present after
emptiness filtering, included slots emit absent sub-fields as empty
strings, and an all-empty slot contributes no key. -/
theorem claim_C8 (d : CVData) :
    SlotOK (process d).work_experience_1
      d.cv_format_type_full_1 d.job_duration_1 d.job_duties_1 ∧
    SlotOK (process d).work_experience_2
      d.cv_format_type_full_2 d.job_duration_2 d.job_duties_2 ∧
    SlotOK (process d).work_experience_3
      d.cv_format_type_full_3 d.job_duration_3 d.job_duties_3 ∧
    SlotOK (process d).work_experience_4
      d.cv_format_type_full_4 d.job_duration_4 d.job_duties_4 ∧
    SlotOK (process d).work_experience_5
      d.cv_format_type_full_5 d.job_duration_5 d.job_duties_5 :=
  ⟨workSlot_ok _ _ _, workSlot_ok _ _ _, workSlot_ok _ _ _,
    workSlot_ok _ _ _, workSlot_ok _ _ _⟩

/-- The record of claim C8's witness: one slot with only a title. -/
def dC8 : CVData := { cv_format_type_full_1 := some (String.toList "Engineer") }

theorem claim_C8_witness :
    (process dC8).work_experience_2 = none ∧
    (⟨String.toList "Engineer", [], []⟩ : WorkExp).duration =
      (processField dC8.job_duration_1).getD [] := by
  have h := claim_C8 dC8
  exact ⟨h.2.1.1.mpr (by decide),
    ((h.1.2 ⟨String.toList "Engineer", [], []⟩ (by decide)).2.1)⟩

/-- Claim C10: the projection always carries the content-mode
classification (one of sparse/standard) and the phone-centered boolean;
the latter is true exactly when phone is present and email absent, and in
particular is the boolean false (not an absent key) when phone is
missing. -/
theorem claim_C10 (d : CVData) :
    ((process d).contentMode = ContentMode.sparse ∨
      (process d).contentMode = ContentMode.standard) ∧
    ((process d).phone_centered = true ↔
      ((process d).email = none ∧ (process d).phone ≠ none)) ∧
    ((process d).phone = none → (process d).phone_centered = false) := by
  refine ⟨?_, ?_, ?_⟩
  · cases h : (process d).contentMode
    · right; rfl
    · left; rfl
  · show (!truthyOpt (processField d.email) &&
        truthyOpt (formatPhoneNumber (processField d.phone))) = true ↔
      (processField d.email = none ∧
        formatPhoneNumber (processField d.phone) ≠ none)
    rw [truthyOpt_processField, truthyOpt_formatPhoneNumber]
    cases he : processField d.email <;>
      cases hp : formatPhoneNumber (processField d.phone) <;> simp
  · intro hnone
    show (!truthyOpt (processField d.email) &&
        truthyOpt (formatPhoneNumber (processField d.phone))) = false
    rw [show formatPhoneNumber (processField d.phone) = none from hnone]
    simp [truthyOpt]

theorem claim_C10_witness :
    (process ({} : CVData)).phone_centered = false ∧
    ((process ({} : CVData)).contentMode = ContentMode.sparse ∨
      (process ({} : CVData)).contentMode = ContentMode.standard) := by
  have h := claim_C10 {}
  exact ⟨h.2.2 (by decide), h.1⟩

/-- The record refuting claim C1: a photo_url holding the "@" sentinel. -/
def dC1 : CVData := { photo_url := some (String.toList "@") }

/-- Claim C1 counterexample: photo_url bypasses the emptiness
classification — the raw value "@" is classified empty but the photo_url
key is still present (holding "@") in the projection, contradicting the
claim for the field photo_url. -/
theorem claim_C1_counterexample :
    isEmptyOpt (rawGet ScalarField.photo_url dC1) = true ∧
    projGet ScalarField.photo_url (process dC1) = some ['@'] := by decide

/-- Claim C1 (amended): for every recognized scalar field other than
photo_url, if the raw value is absent or classified empty, the
corresponding projection key is absent (photo_url is exempt: it is passed
through trimmed whenever the raw value is a truthy string). -/
theorem claim_C1_amended (d : CVData) (f : ScalarField)
    (hf : f ≠ ScalarField.photo_url)
    (he : isEmptyOpt (rawGet f d) = true) :
    projGet f (process d) = none := by
  have hnone : ∀ x : Option JStr, isEmptyOpt x = true → processField x = none :=
    fun x hx => processField_eq_none_iff.mpr hx
  cases f with
  | photo_url => exact absurd rfl hf
  | phone =>
    show formatPhoneNumber (processField d.phone) = none
    rw [hnone d.phone he]
    rfl
  | education_matric => exact formatEducation_eq_none_of_empty he
  | tertiary_education => exact formatEducation_eq_none_of_empty he
  | skills =>
    show formatCommaSeparated (processField d.skills) = none
    rw [hnone d.skills he]
    rfl
  | languages =>
    show formatCommaSeparated (processField d.languages) = none
    rw [hnone d.languages he]
    rfl
  | certificates =>
    show (if truthyOpt (processField d.certificates) ||
          truthyOpt (processField d.other_qualifications)
        then processField d.certificates else none) = none
    rw [hnone d.certificates he]
    simp [truthyOpt]
  | other_qualifications =>
    show (if truthyOpt (processField d.certificates) ||
          truthyOpt (processField d.other_qualifications)
        then processField d.other_qualifications else none) = none
    rw [hnone d.other_qualifications he]
    simp [truthyOpt]
  | additional_experience =>
    show (if truthyOpt (processField d.additional_experience)
        then processField d.additional_experience else none) = none
    rw [hnone d.additional_experience he]
    simp [truthyOpt]
  | full_name => exact hnone _ he
  | designation => exact hnone _ he
  | email => exact hnone _ he
  | physical_address => exact hnone _ he
  | splash_image => exact hnone _ he
  | career_goal => exact hnone _ he
  | reference_1 => exact hnone _ he
  | reference_2 => exact hnone _ he
  | reference_3 => exact hnone _ he
  | reference_4 => exact hnone _ he
  | reference_5 => exact hnone _ he

/-- The record of claim C1's witness: a whitespace-padded none sentinel. -/
def dC1w : CVData := { full_name := some (String.toList " none ") }

theorem claim_C1_witness :
    projGet ScalarField.full_name (process dC1w) = none :=
  claim_C1_amended dC1w ScalarField.full_name (by decide) (by decide)

/-- The record refuting claim C3: an "@" sentinel title and tertiary
education, both classified empty by the §4.1 rule but truthy as raw
values. -/
def dC3 : CVData :=
  { cv_format_type_full_1 := some (String.toList "@")
    tertiary_education := some (String.toList "@") }

/-- Claim C3 counterexample: every work-experience title and the tertiary
education of `dC3` are classified empty (so the claim requires sparse),
yet the code classifies the record as standard, because
`detectContentMode` tests raw truthiness rather than the emptiness
classification. -/
theorem claim_C3_counterexample :
    isEmptyOpt dC3.cv_format_type_full_1 = true ∧
    isEmptyOpt dC3.cv_format_type_full_2 = true ∧
    isEmptyOpt dC3.cv_format_type_full_3 = true ∧
    isEmptyOpt dC3.cv_format_type_full_4 = true ∧
    isEmptyOpt dC3.cv_format_type_full_5 = true ∧
    isEmptyOpt dC3.tertiary_education = true ∧
    (process dC3).contentMode = ContentMode.standard := by decide

/-- Claim C3 (amended): the content mode is sparse iff no raw
work-experience title field is truthy (a non-empty string, regardless of
sentinels or whitespace) or the raw tertiary-education field is not
truthy; presence here is raw JS truthiness, not the §4.1 emptiness
classification. -/
theorem claim_C3_amended (d : CVData) :
    (process d).contentMode = ContentMode.sparse ↔
      ((truthyOpt d.cv_format_type_full_1 = false ∧
        truthyOpt d.cv_format_type_full_2 = false ∧
        truthyOpt d.cv_format_type_full_3 = false ∧
        truthyOpt d.cv_format_type_full_4 = false ∧
        truthyOpt d.cv_format_type_full_5 = false) ∨
        truthyOpt d.tertiary_education = false) := by
  have key : ∀ b1 b2 b3 b4 b5 bt : Bool,
      ((if !(b1 || b2 || b3 || b4 || b5) || !bt then ContentMode.sparse
        else ContentMode.standard) = ContentMode.sparse ↔
        ((b1 = false ∧ b2 = false ∧ b3 = false ∧ b4 = false ∧ b5 = false) ∨
          bt = false)) := by decide
  show (if !(truthyOpt d.cv_format_type_full_1 || truthyOpt d.cv_format_type_full_2 ||
        truthyOpt d.cv_format_type_full_3 || truthyOpt d.cv_format_type_full_4 ||
        truthyOpt d.cv_format_type_full_5) || !truthyOpt d.tertiary_education
      then ContentMode.sparse else ContentMode.standard) = ContentMode.sparse ↔ _
  exact key _ _ _ _ _ _

theorem claim_C3_witness :
    (process ({} : CVData)).contentMode = ContentMode.sparse :=
  (claim_C3_amended {}).mpr (Or.inr (by decide))

/-- The record refuting claim C4: a full name with an internal double
space. -/
def dC4 : CVData := { full_name := some (String.toList "John  Doe") }

/-- Claim C4 counterexample: the projection keeps the internal double
space of the full name verbatim, while the claim requires internal
whitespace runs of single-line fields to be collapsed (as
`normalizeWhitespace` would do — but that function is never called). -/
theorem claim_C4_counterexample :
    (process dC4).full_name = some (String.toList "John  Doe") ∧
    normalizeWhitespace (String.toList "John  Doe") = String.toList "John Doe" ∧
    String.toList "John  Doe" ≠ String.toList "John Doe" := by decide

/-- Claim C4 (amended): every present field value is trimmed of
surrounding whitespace only; internal whitespace — runs and newlines alike
— is preserved verbatim for every field (no collapsing occurs at any
layer). -/
theorem claim_C4_amended (d : CVData) :
    (∀ v, (process d).full_name = some v → v = jsTrim (d.full_name.getD [])) ∧
    (∀ v, (process d).email = some v → v = jsTrim (d.email.getD [])) ∧
    (∀ v, (process d).physical_address = some v →
      v = jsTrim (d.physical_address.getD [])) ∧
    (∀ v, (process d).career_goal = some v → v = jsTrim (d.career_goal.getD [])) ∧
    (∀ v, (process d).education_matric = some v →
      v = jsTrim (d.education_matric.getD [])) ∧
    (∀ v, (process d).reference_1 = some v → v = jsTrim (d.reference_1.getD [])) := by
  refine ⟨?_, ?_, ?_, ?_, ?_, ?_⟩
  · intro v hv
    exact (processField_some_spec (v := d.full_name) hv).1
  · intro v hv
    exact (processField_some_spec (v := d.email) hv).1
  · intro v hv
    exact (processField_some_spec (v := d.physical_address) hv).1
  · intro v hv
    exact (processField_some_spec (v := d.career_goal) hv).1
  · intro v hv
    have hpf := (formatEducation_some_spec (x := d.education_matric) hv).1
    exact (processField_some_spec hpf).1
  · intro v hv
    exact (processField_some_spec (v := d.reference_1) hv).1

theorem claim_C4_witness :
    String.toList "John  Doe" = jsTrim (dC4.full_name.getD []) :=
  (claim_C4_amended dC4).1 (String.toList "John  Doe") (by decide)

/-- Claim C5 counterexample: the template-side existence helper diverges
from the §4.1 emptiness rule on a placeholder value and on a
whitespace-only value: both are classified empty by §4.1, yet the helper
reports them as existent. -/
theorem claim_C5_counterexample :
    ifExists (some (String.toList "@abc")) = true ∧
    isEmptyStr (String.toList "@abc") = true ∧
    ifExists (some [' ']) = true ∧
    isEmptyStr [' '] = true := by decide

/-- Claim C5 (amended): the helper tests only exact equality with the
empty string, the at-sign and case-insensitive none, without trimming and
without the placeholder pattern; it therefore agrees with the §4.1
emptiness rule exactly on values that are already trimmed and are not
@identifier placeholders. -/
theorem claim_C5_amended (s : JStr) (htrim : jsTrim s = s)
    (hph : isPlaceholder s = false) :
    ifExists (some s) = !isEmptyStr s := by
  simp only [ifExists, isEmptyStr, htrim, hph, Bool.or_false, Bool.not_or,
    decide_not]

theorem claim_C5_witness :
    ifExists (some (String.toList "hello")) = !isEmptyStr (String.toList "hello") :=
  claim_C5_amended (String.toList "hello") (by decide) (by decide)

/-! ### Lemmas about the render retry loop -/

theorem generatePDFGo_attempts_le {E B : Type} (fn : Nat → Except E B) :
    ∀ (rem att : Nat) (causes : List E),
      (generatePDFGo fn rem att causes).attemptsMade ≤ att + rem := by
  intro rem
  induction rem with
  | zero =>
    intro att causes
    simp [generatePDFGo]
  | succ rm ih =>
    intro att causes
    simp only [generatePDFGo]
    cases fn (att + 1) with
    | ok pdf =>
      show att + 1 ≤ att + (rm + 1)
      omega
    | error e =>
      dsimp only
      by_cases hrm : rm = 0
      · rw [if_pos hrm]
        show att + 1 ≤ att + (rm + 1)
        omega
      · rw [if_neg hrm]
        have := ih (att + 1) (causes ++ [e])
        omega

theorem generatePDFGo_success {E B : Type} (fn : Nat → Except E B) (b : B) :
    ∀ (k rem att : Nat) (causes : List E), k < rem →
      (∀ j, j < k → ∃ e, fn (att + j + 1) = Except.error e) →
      fn (att + k + 1) = Except.ok b →
      (generatePDFGo fn rem att causes).result = Except.ok b ∧
      (generatePDFGo fn rem att causes).attemptsMade = att + k + 1 ∧
      (generatePDFGo fn rem att causes).causes.length = causes.length + k := by
  intro k
  induction k with
  | zero =>
    intro rem att causes hlt hfail hsucc
    cases rem with
    | zero => omega
    | succ rm =>
      simp only [generatePDFGo]
      rw [hsucc]
      exact ⟨rfl, rfl, rfl⟩
  | succ kk ih =>
    intro rem att causes hlt hfail hsucc
    cases rem with
    | zero => omega
    | succ rm =>
      obtain ⟨e, herr⟩ := hfail 0 (Nat.succ_pos kk)
      rw [show att + 0 + 1 = att + 1 from by omega] at herr
      simp only [generatePDFGo]
      rw [herr]
      dsimp only
      rw [if_neg (by omega : ¬rm = 0)]
      have hrec := ih rm (att + 1) (causes ++ [e]) (by omega)
        (fun j hj => by
          obtain ⟨e2, he2⟩ := hfail (j + 1) (by omega)
          exact ⟨e2, by rw [show att + 1 + j + 1 = att + (j + 1) + 1 from by omega]; exact he2⟩)
        (by rw [show att + 1 + kk + 1 = att + (kk + 1) + 1 from by omega]; exact hsucc)
      refine ⟨hrec.1, ?_, ?_⟩
      · rw [hrec.2.1]
        omega
      · rw [hrec.2.2]
        simp
        omega

theorem generatePDFGo_exhaust {E B : Type} (fn : Nat → Except E B) :
    ∀ (rem att : Nat) (causes : List E), 0 < rem →
      (∀ j, j < rem → ∃ e, fn (att + j + 1) = Except.error e) →
      (generatePDFGo fn rem att causes).result = Except.error exhaustedMessage ∧
      (generatePDFGo fn rem att causes).attemptsMade = att + rem ∧
      (generatePDFGo fn rem att causes).causes.length = causes.length + rem := by
  intro rem
  induction rem with
  | zero =>
    intro att causes h0
    omega
  | succ rm ih =>
    intro att causes h0 hfail
    obtain ⟨e, herr⟩ := hfail 0 (Nat.succ_pos rm)
    rw [show att + 0 + 1 = att + 1 from by omega] at herr
    simp only [generatePDFGo]
    rw [herr]
    dsimp only
    by_cases hrm : rm = 0
    · rw [if_pos hrm]
      subst hrm
      refine ⟨rfl, rfl, ?_⟩
      simp
    · rw [if_neg hrm]
      have hrec := ih (att + 1) (causes ++ [e]) (by omega)
        (fun j hj => by
          obtain ⟨e2, he2⟩ := hfail (j + 1) (by omega)
          exact ⟨e2, by rw [show att + 1 + j + 1 = att + (j + 1) + 1 from by omega]; exact he2⟩)
      refine ⟨hrec.1, ?_, ?_⟩
      · rw [hrec.2.1]
        omega
      · rw [hrec.2.2]
        simp
        omega

/-- Claim C6: for every configured retry count r, the driver makes at most
r+1 attempts; when the first k attempts fail and attempt k+1 succeeds
(k ≤ r), the successful bytes are returned after exactly k+1 attempts with
exactly k recorded failures; when all r+1 attempts fail, the single
generic generation-failed error is surfaced after exactly r+1 attempts,
with the r+1 lower-level causes recorded but not part of the surfaced
error. -/
theorem claim_C6 {E B : Type} (r : Nat) (fn : Nat → Except E B) :
    (generatePDF r fn).attemptsMade ≤ r + 1 ∧
    (∀ k b, k ≤ r →
      (∀ j, j < k → ∃ e, fn (j + 1) = Except.error e) →
      fn (k + 1) = Except.ok b →
      (generatePDF r fn).result = Except.ok b ∧
      (generatePDF r fn).attemptsMade = k + 1 ∧
      (generatePDF r fn).causes.length = k) ∧
    ((∀ j, j < r + 1 → ∃ e, fn (j + 1) = Except.error e) →
      (generatePDF r fn).result = Except.error exhaustedMessage ∧
      (generatePDF r fn).attemptsMade = r + 1 ∧
      (generatePDF r fn).causes.length = r + 1) := by
  refine ⟨?_, ?_, ?_⟩
  · have := generatePDFGo_attempts_le fn (r + 1) 0 []
    simpa [generatePDF] using this
  · intro k b hk hfail hsucc
    have h := generatePDFGo_success fn b k (r + 1) 0 [] (by omega)
      (fun j hj => by
        obtain ⟨e, he⟩ := hfail j hj
        exact ⟨e, by rw [Nat.zero_add]; exact he⟩)
      (by rw [Nat.zero_add]; exact hsucc)
    refine ⟨h.1, ?_, ?_⟩
    · rw [show k + 1 = 0 + k + 1 from by omega]
      exact h.2.1
    · have := h.2.2
      simpa using this
  · intro hfail
    have h := generatePDFGo_exhaust fn (r + 1) 0 [] (by omega)
      (fun j hj => by
        obtain ⟨e, he⟩ := hfail j hj
        exact ⟨e, by rw [Nat.zero_add]; exact he⟩)
    refine ⟨h.1, ?_, ?_⟩
    · have := h.2.1
      simpa using this
    · have := h.2.2
      simpa using this

/-- The attempt schedule of claim C6's witness: fail once, then succeed. -/
def fnC6 : Nat → Except Unit Nat :=
  fun n => if n = 1 then Except.error () else Except.ok 7

/-- The always-failing attempt schedule of claim C6's witness. -/
def fnC6bad : Nat → Except Unit Nat := fun _ => Except.error ()

theorem claim_C6_witness :
    (generatePDF 1 fnC6).result = Except.ok 7 ∧
    (generatePDF 1 fnC6).attemptsMade = 2 ∧
    (generatePDF 1 fnC6).causes.length = 1 ∧
    (generatePDF 0 fnC6bad).result = Except.error exhaustedMessage ∧
    (generatePDF 0 fnC6bad).attemptsMade = 1 := by
  have h1 := (claim_C6 1 fnC6).2.1 1 7 (le_refl 1)
    (fun j hj => ⟨(), by
      have hj0 : j = 0 := by omega
      subst hj0
      rfl⟩)
    (by rfl)
  have h2 := (claim_C6 0 fnC6bad).2.2 (fun j hj => ⟨(), rfl⟩)
  exact ⟨h1.1, h1.2.1, h1.2.2, h2.1, h2.2.1⟩

/-! ### Mixed-delimiter joins for claim C2 -/

/-- Join items with a comma-space between each pair. -/
def commaSpaceJoin : JStr → List JStr → JStr
  | h, [] => h
  | h, i :: rest => h ++ ',' :: ' ' :: commaSpaceJoin i rest

/-- Join a head item with further items, each preceded by either the
ampersand conjunction " & " or the comma separator ", ". -/
def mixedJoin : JStr → List (Bool × JStr) → JStr
  | h, [] => h
  | h, (useAmp, i) :: rest =>
    h ++ (if useAmp then [' ', '&', ' '] else [',', ' ']) ++ mixedJoin i rest

theorem commaSpaceJoin_cons_head (c : Char) (i : JStr) (rest : List JStr) :
    commaSpaceJoin (c :: i) rest = c :: commaSpaceJoin i rest := by
  cases rest <;> simp [commaSpaceJoin]

theorem mixedJoin_head_cons (c : Char) (i : JStr) (rest : List (Bool × JStr)) :
    ∃ cs, mixedJoin (c :: i) rest = c :: cs := by
  cases rest with
  | nil => exact ⟨i, rfl⟩
  | cons pr r =>
    cases pr with
    | mk u j =>
      exact ⟨i ++ (if u then [' ', '&', ' '] else [',', ' ']) ++ mixedJoin j r,
        by simp [mixedJoin]⟩

theorem mixedJoin_ne_nil {h : JStr} (hne : h ≠ []) (its : List (Bool × JStr)) :
    mixedJoin h its ≠ [] := by
  cases its with
  | nil => exact hne
  | cons pr r =>
    cases pr with
    | mk u j =>
      simp only [mixedJoin]
      intro hcon
      rcases List.append_eq_nil.mp hcon with ⟨h1, -⟩
      rcases List.append_eq_nil.mp h1 with ⟨h2, -⟩
      exact hne h2

theorem mem_mixedJoin {h : JStr} {its : List (Bool × JStr)} {c : Char}
    (hm : c ∈ mixedJoin h its) :
    c ∈ h ∨ (∃ pr ∈ its, c ∈ pr.2) ∨ c = ' ' ∨ c = '&' ∨ c = ',' := by
  induction its generalizing h with
  | nil => exact Or.inl hm
  | cons pr rest ih =>
    cases pr with
    | mk u i =>
      simp only [mixedJoin, List.append_assoc, List.mem_append] at hm
      rcases hm with hm1 | hm2 | hm3
      · exact Or.inl hm1
      · cases u with
        | true =>
          simp only [if_true] at hm2
          rcases List.mem_cons.mp hm2 with h1 | h12
          · exact Or.inr (Or.inr (Or.inl h1))
          · rcases List.mem_cons.mp h12 with h2 | h23
            · exact Or.inr (Or.inr (Or.inr (Or.inl h2)))
            · rcases List.mem_cons.mp h23 with h3 | h4
              · exact Or.inr (Or.inr (Or.inl h3))
              · exact absurd h4 (List.not_mem_nil c)
        | false =>
          simp only [Bool.false_eq_true, if_false] at hm2
          rcases List.mem_cons.mp hm2 with h1 | h12
          · exact Or.inr (Or.inr (Or.inr (Or.inr h1)))
          · rcases List.mem_cons.mp h12 with h2 | h3
            · exact Or.inr (Or.inr (Or.inl h2))
            · exact absurd h3 (List.not_mem_nil c)
      · rcases ih hm3 with h1 | ⟨q, hq, hcq⟩ | h3
        · exact Or.inr (Or.inl ⟨(u, i), List.mem_cons_self _ _, h1⟩)
        · exact Or.inr (Or.inl ⟨q, List.mem_cons_of_mem _ hq, hcq⟩)
        · exact Or.inr (Or.inr h3)

theorem replaceAmpGo_mixedJoin {h : JStr} {its : List (Bool × JStr)}
    (hh : CleanItem h) (hits : ∀ pr ∈ its, CleanItem pr.2) (buf : JStr) :
    replaceAmpGo false buf (mixedJoin h its) =
      buf ++ commaSpaceJoin h (its.map Prod.snd) := by
  induction its generalizing h buf with
  | nil =>
    simp only [mixedJoin, List.map_nil, commaSpaceJoin]
    exact replaceAmpGo_no_amp hh.2.2.2.1 buf
  | cons pr rest ih =>
    cases pr with
    | mk u i =>
      have hi : CleanItem i := hits (u, i) (List.mem_cons_self _ _)
      have hrest : ∀ q ∈ rest, CleanItem q.2 :=
        fun q hq => hits q (List.mem_cons_of_mem _ hq)
      have hlast : ∀ d, h.getLast? = some d → isWS d = false :=
        fun d hd => trimmed_getLast_not_ws hh.2.1 hd
      obtain ⟨c, cs, hci⟩ : ∃ c cs, i = c :: cs := by
        cases hcc : i with
        | nil => exact absurd hcc hi.1
        | cons c cs => exact ⟨c, cs, rfl⟩
      have hheadws : isWS c = false :=
        trimmed_head_not_ws hi.2.1 (by rw [hci]; rfl)
      have hheadamp : c ≠ '&' := by
        intro hcc
        exact hi.2.2.2.1 (by rw [hci, hcc]; exact List.mem_cons_self _ _)
      obtain ⟨cs2, hmj⟩ := mixedJoin_head_cons c cs rest
      rw [← hci] at hmj
      have hihz := ih hi hrest
      cases u with
      | true =>
        show replaceAmpGo false buf
            (h ++ [' ', '&', ' '] ++ mixedJoin i rest) = _
        rw [List.append_assoc,
          replaceAmpGo_clean_prefix hh.2.2.2.1 hh.1 hlast]
        have hstep : replaceAmpGo false [] ([' ', '&', ' '] ++ mixedJoin i rest) =
            ',' :: ' ' :: replaceAmpGo true [] (mixedJoin i rest) := by
          simp [replaceAmpGo, isWS]
        rw [hstep, replaceAmpGo_true_head hheadws hheadamp cs2 hmj, hihz []]
        simp [commaSpaceJoin, List.map_cons]
      | false =>
        show replaceAmpGo false buf
            (h ++ [',', ' '] ++ mixedJoin i rest) = _
        rw [List.append_assoc,
          replaceAmpGo_clean_prefix hh.2.2.2.1 hh.1 hlast]
        have hstep : replaceAmpGo false [] ([',', ' '] ++ mixedJoin i rest) =
            ',' :: replaceAmpGo false [' '] (mixedJoin i rest) := by
          simp [replaceAmpGo, isWS]
        rw [hstep, hihz [' ']]
        simp [commaSpaceJoin, List.map_cons]

theorem splitOnChar_commaSpaceJoin {h : JStr} {items : List JStr}
    (hh : ',' ∉ h) (hitems : ∀ i ∈ items, ',' ∉ i) :
    splitOnChar ',' (commaSpaceJoin h items) =
      h :: items.map (fun i => ' ' :: i) := by
  induction items generalizing h with
  | nil => simp [commaSpaceJoin, splitOnChar_of_not_mem hh]
  | cons i rest ih =>
    have hi := hitems i (List.mem_cons_self _ _)
    have hrest : ∀ q ∈ rest, ',' ∉ q :=
      fun q hq => hitems q (List.mem_cons_of_mem _ hq)
    show splitOnChar ',' (h ++ ',' :: ' ' :: commaSpaceJoin i rest) = _
    rw [splitOnChar_append_sep hh]
    have hsp : (' ' :: commaSpaceJoin i rest) = commaSpaceJoin (' ' :: i) rest :=
      (commaSpaceJoin_cons_head ' ' i rest).symm
    rw [hsp, @ih (' ' :: i) (by
      intro hm
      rcases List.mem_cons.mp hm with h1 | h2
      · exact absurd h1.symm (by decide)
      · exact hi h2) hrest]
    simp

theorem map_trim_cons_ws {items : List JStr} (hitems : ∀ i ∈ items, jsTrim i = i) :
    items.map (fun i => jsTrim (' ' :: i)) = items := by
  induction items with
  | nil => rfl
  | cons i rest ih =>
    simp only [List.map_cons]
    rw [jsTrim_cons_ws (by decide), hitems i (List.mem_cons_self _ _),
      ih (fun q hq => hitems q (List.mem_cons_of_mem _ hq))]

/-- Claim C2 counterexample: on a value containing both a comma and an
ampersand the code lets BOTH act as delimiters (the ampersand is replaced
by a comma before splitting), while the claim says only the comma
delimits. -/
theorem claim_C2_counterexample :
    formatCommaSeparated (some (String.toList "A, B & C")) =
      some (String.toList "A\nB\nC") ∧
    String.toList "A\nB\nC" ≠ String.toList "A\nB & C" := by decide

/-- Claim C2 (amended): a present skills/languages value containing a
newline passes through unchanged; otherwise every ampersand conjunction is
first replaced by a comma-space and the value is then split on commas — so
comma and ampersand both act as delimiters, even when both appear in one
value — each item is trimmed, empty items are dropped, and the items are
re-joined with newlines.  Stated over any head item joined to further
clean items by an arbitrary mix of the two separators. -/
theorem claim_C2_amended :
    (∀ v : JStr, v ≠ [] → '\n' ∈ v → formatCommaSeparated (some v) = some v) ∧
    (∀ (h : JStr) (its : List (Bool × JStr)), CleanItem h →
      (∀ pr ∈ its, CleanItem pr.2) →
      formatCommaSeparated (some (mixedJoin h its)) =
        some (joinChar '\n' (h :: its.map Prod.snd))) := by
  constructor
  · intro v hne hnl
    simp only [formatCommaSeparated]
    rw [if_neg (by simp [hne]), if_pos (List.elem_iff.mpr hnl)]
  · intro h its hh hits
    have hVne : mixedJoin h its ≠ [] := mixedJoin_ne_nil hh.1 its
    have hVnl : ¬(mixedJoin h its).contains '\n' := by
      intro hcon
      rcases mem_mixedJoin (List.elem_iff.mp hcon) with h1 | ⟨q, hq, hcq⟩ | h3 | h4 | h5
      · exact hh.2.2.2.2 h1
      · exact (hits q hq).2.2.2.2 hcq
      · exact absurd h3 (by decide)
      · exact absurd h4 (by decide)
      · exact absurd h5 (by decide)
    have hitems : ∀ i ∈ its.map Prod.snd, CleanItem i := by
      intro i hi
      obtain ⟨q, hq, hqi⟩ := List.mem_map.mp hi
      rw [← hqi]
      exact hits q hq
    simp only [formatCommaSeparated]
    rw [if_neg (by simp [hVne]), if_neg hVnl]
    have hra : replaceAmp (mixedJoin h its) =
        commaSpaceJoin h (its.map Prod.snd) :=
      replaceAmpGo_mixedJoin hh hits []
    rw [hra, splitOnChar_commaSpaceJoin hh.2.2.1
      (fun i hi => (hitems i hi).2.2.1)]
    rw [List.map_cons, hh.2.1, List.map_map]
    have hmm : (List.map (jsTrim ∘ fun i => ' ' :: i) (its.map Prod.snd)) =
        its.map Prod.snd := by
      have := @map_trim_cons_ws (its.map Prod.snd)
        (fun i hi => (hitems i hi).2.1)
      simpa [Function.comp] using this
    rw [hmm]
    have hfil : (h :: its.map Prod.snd).filter (fun i => !i.isEmpty) =
        h :: its.map Prod.snd := by
      apply List.filter_eq_self.mpr
      intro a ha
      rcases List.mem_cons.mp ha with h1 | h2
      · rw [h1]
        simp [List.isEmpty_eq_false.mpr hh.1]
      · simp [List.isEmpty_eq_false.mpr (hitems a h2).1]
    rw [hfil]
    rw [if_pos (by simp)]

theorem claim_C2_witness :
    formatCommaSeparated (some (mixedJoin (String.toList "English")
      [(true, String.toList "Xhosa")])) =
      some (joinChar '\n'
        ((String.toList "English") :: [(true, String.toList "Xhosa")].map Prod.snd)) :=
  claim_C2_amended.2 (String.toList "English") [(true, String.toList "Xhosa")]
    (by decide) (by decide)

/-! ### Claim C9: idempotence of re-normalization -/

/-- The record refuting claim C9: a skills value whose single surviving
item is the "@" sentinel. -/
def dC9 : CVData := { skills := some (String.toList "@,") }

/-- Claim C9 counterexample: skills "@," normalizes to the present value
"@", but re-serializing and re-normalizing drops the field entirely (the
lone "@" is classified empty on the second pass), so a field present in
the first projection is altered by the second. -/
theorem claim_C9_counterexample :
    (process dC9).skills = some ['@'] ∧
    (process (reserialize (process dC9))).skills = none := by decide

theorem processField_if (c : Bool) (x : Option JStr) (hx : processField x = x) :
    processField (if c then x else none) = if c then x else none := by
  cases c
  · simp [processField]
  · simpa using hx

theorem certCond_idem (x y : Option JStr) (hx : processField x = x)
    (hy : processField y = y) :
    (truthyOpt (processField (if truthyOpt x || truthyOpt y then x else none)) ||
      truthyOpt (processField (if truthyOpt x || truthyOpt y then y else none))) =
    (truthyOpt x || truthyOpt y) := by
  by_cases hc : (truthyOpt x || truthyOpt y) = true
  · rw [if_pos hc, if_pos hc, hx, hy, hc]
  · rw [if_neg hc, if_neg hc]
    have hcf : (truthyOpt x || truthyOpt y) = false := by
      rwa [Bool.not_eq_true] at hc
    rw [hcf]
    rfl

theorem addCond_idem (x : Option JStr) (hx : processField x = x) :
    truthyOpt (processField (if truthyOpt x then x else none)) = truthyOpt x := by
  by_cases ht : truthyOpt x = true
  · rw [if_pos ht, hx, ht]
  · rw [if_neg ht]
    have htf : truthyOpt x = false := by rwa [Bool.not_eq_true] at ht
    rw [htf]
    rfl

/-- Claim C9 (amended): re-normalizing the re-serialized projection leaves
every field of the first projection unchanged, with exactly the exceptions
the counterexample forces: a skills/languages value that is itself
classified empty by §4.1 (a lone sentinel item, reachable e.g. from input
"@,") is dropped on the second pass, as is a photo_url that trimmed to the
empty string; under those provisos skills, languages and photo_url are
also unchanged.  (The derived contentMode is recomputed from raw
truthiness and is not part of the carried-back string fields the claim
quantifies over.) -/
theorem claim_C9_amended (d : CVData) :
    (∀ v, (process d).skills = some v → isEmptyStr v = false →
      (process (reserialize (process d))).skills = some v) ∧
    (∀ v, (process d).languages = some v → isEmptyStr v = false →
      (process (reserialize (process d))).languages = some v) ∧
    (∀ v, (process d).photo_url = some v → v ≠ [] →
      (process (reserialize (process d))).photo_url = some v) ∧
    (process (reserialize (process d))).full_name = (process d).full_name ∧
    (process (reserialize (process d))).designation = (process d).designation ∧
    (process (reserialize (process d))).phone = (process d).phone ∧
    (process (reserialize (process d))).email = (process d).email ∧
    (process (reserialize (process d))).physical_address =
      (process d).physical_address ∧
    (process (reserialize (process d))).splash_image = (process d).splash_image ∧
    (process (reserialize (process d))).career_goal = (process d).career_goal ∧
    (process (reserialize (process d))).education_matric =
      (process d).education_matric ∧
    (process (reserialize (process d))).tertiary_education =
      (process d).tertiary_education ∧
    (process (reserialize (process d))).training_certificates_heading =
      (process d).training_certificates_heading ∧
    (process (reserialize (process d))).training_cert_bullet =
      (process d).training_cert_bullet ∧
    (process (reserialize (process d))).other_qualifications_bullet =
      (process d).other_qualifications_bullet ∧
    (process (reserialize (process d))).work_experience_1 =
      (process d).work_experience_1 ∧
    (process (reserialize (process d))).work_experience_2 =
      (process d).work_experience_2 ∧
    (process (reserialize (process d))).work_experience_3 =
      (process d).work_experience_3 ∧
    (process (reserialize (process d))).work_experience_4 =
      (process d).work_experience_4 ∧
    (process (reserialize (process d))).work_experience_5 =
      (process d).work_experience_5 ∧
    (process (reserialize (process d))).reference_1 = (process d).reference_1 ∧
    (process (reserialize (process d))).reference_2 = (process d).reference_2 ∧
    (process (reserialize (process d))).reference_3 = (process d).reference_3 ∧
    (process (reserialize (process d))).reference_4 = (process d).reference_4 ∧
    (process (reserialize (process d))).reference_5 = (process d).reference_5 ∧
    (process (reserialize (process d))).Additional_Experience_heading =
      (process d).Additional_Experience_heading ∧
    (process (reserialize (process d))).additional_experience =
      (process d).additional_experience ∧
    (process (reserialize (process d))).phone_centered =
      (process d).phone_centered := by
  refine ⟨?_, ?_, ?_, ?_, ?_, ?_, ?_, ?_, ?_, ?_, ?_, ?_, ?_, ?_, ?_, ?_, ?_,
    ?_, ?_, ?_, ?_, ?_, ?_, ?_, ?_, ?_, ?_, ?_⟩
  · intro v hv hemp
    have hv2 : formatCommaSeparated (processField d.skills) = some v := hv
    show formatCommaSeparated
      (processField (formatCommaSeparated (processField d.skills))) = some v
    rw [hv2]
    exact fCS_stable hv2 hemp
  · intro v hv hemp
    have hv2 : formatCommaSeparated (processField d.languages) = some v := hv
    show formatCommaSeparated
      (processField (formatCommaSeparated (processField d.languages))) = some v
    rw [hv2]
    exact fCS_stable hv2 hemp
  · intro v hv hne
    have hv2 : passPhotoUrl d.photo_url = some v := hv
    show passPhotoUrl (passPhotoUrl d.photo_url) = some v
    rw [hv2]
    exact passPhotoUrl_stable hv2 hne
  · exact processField_idem d.full_name
  · exact processField_idem d.designation
  · exact phone_pipeline_idem d.phone
  · exact processField_idem d.email
  · exact processField_idem d.physical_address
  · exact processField_idem d.splash_image
  · exact processField_idem d.career_goal
  · exact formatEducation_idem d.education_matric
  · exact formatEducation_idem d.tertiary_education
  · show (if truthyOpt (processField (if truthyOpt (processField d.certificates) ||
          truthyOpt (processField d.other_qualifications)
          then processField d.certificates else none)) ||
        truthyOpt (processField (if truthyOpt (processField d.certificates) ||
          truthyOpt (processField d.other_qualifications)
          then processField d.other_qualifications else none))
        then some (String.toList "CERTIFICATIONS & QUALIFICATIONS") else none) =
      (if truthyOpt (processField d.certificates) ||
          truthyOpt (processField d.other_qualifications)
        then some (String.toList "CERTIFICATIONS & QUALIFICATIONS") else none)
    rw [certCond_idem (processField d.certificates)
      (processField d.other_qualifications)
      (processField_idem d.certificates) (processField_idem d.other_qualifications)]
  · show (if truthyOpt (processField (if truthyOpt (processField d.certificates) ||
          truthyOpt (processField d.other_qualifications)
          then processField d.certificates else none)) ||
        truthyOpt (processField (if truthyOpt (processField d.certificates) ||
          truthyOpt (processField d.other_qualifications)
          then processField d.other_qualifications else none))
        then processField (if truthyOpt (processField d.certificates) ||
          truthyOpt (processField d.other_qualifications)
          then processField d.certificates else none) else none) =
      (if truthyOpt (processField d.certificates) ||
          truthyOpt (processField d.other_qualifications)
        then processField d.certificates else none)
    rw [certCond_idem (processField d.certificates)
      (processField d.other_qualifications)
      (processField_idem d.certificates) (processField_idem d.other_qualifications)]
    rw [processField_if _ _ (processField_idem d.certificates)]
    by_cases hc : (truthyOpt (processField d.certificates) ||
        truthyOpt (processField d.other_qualifications)) = true <;>
      simp [hc]
  · show (if truthyOpt (processField (if truthyOpt (processField d.certificates) ||
          truthyOpt (processField d.other_qualifications)
          then processField d.certificates else none)) ||
        truthyOpt (processField (if truthyOpt (processField d.certificates) ||
          truthyOpt (processField d.other_qualifications)
          then processField d.other_qualifications else none))
        then processField (if truthyOpt (processField d.certificates) ||
          truthyOpt (processField d.other_qualifications)
          then processField d.other_qualifications else none) else none) =
      (if truthyOpt (processField d.certificates) ||
          truthyOpt (processField d.other_qualifications)
        then processField d.other_qualifications else none)
    rw [certCond_idem (processField d.certificates)
      (processField d.other_qualifications)
      (processField_idem d.certificates) (processField_idem d.other_qualifications)]
    rw [processField_if _ _ (processField_idem d.other_qualifications)]
    by_cases hc : (truthyOpt (processField d.certificates) ||
        truthyOpt (processField d.other_qualifications)) = true <;>
      simp [hc]
  · exact workExp_pipeline_idem d.cv_format_type_full_1 d.job_duration_1 d.job_duties_1
  · exact workExp_pipeline_idem d.cv_format_type_full_2 d.job_duration_2 d.job_duties_2
  · exact workExp_pipeline_idem d.cv_format_type_full_3 d.job_duration_3 d.job_duties_3
  · exact workExp_pipeline_idem d.cv_format_type_full_4 d.job_duration_4 d.job_duties_4
  · exact workExp_pipeline_idem d.cv_format_type_full_5 d.job_duration_5 d.job_duties_5
  · exact processField_idem d.reference_1
  · exact processField_idem d.reference_2
  · exact processField_idem d.reference_3
  · exact processField_idem d.reference_4
  · exact processField_idem d.reference_5
  · show (if truthyOpt (processField (if truthyOpt (processField d.additional_experience)
          then processField d.additional_experience else none))
        then some (String.toList "ADDITIONAL EXPERIENCE") else none) =
      (if truthyOpt (processField d.additional_experience)
        then some (String.toList "ADDITIONAL EXPERIENCE") else none)
    rw [addCond_idem (processField d.additional_experience)
      (processField_idem d.additional_experience)]
  · show (if truthyOpt (processField (if truthyOpt (processField d.additional_experience)
          then processField d.additional_experience else none))
        then processField (if truthyOpt (processField d.additional_experience)
          then processField d.additional_experience else none) else none) =
      (if truthyOpt (processField d.additional_experience)
        then processField d.additional_experience else none)
    rw [addCond_idem (processField d.additional_experience)
      (processField_idem d.additional_experience)]
    rw [processField_if _ _ (processField_idem d.additional_experience)]
    by_cases hc : truthyOpt (processField d.additional_experience) = true <;>
      simp [hc]
  · show (!truthyOpt (processField (processField d.email)) &&
        truthyOpt (formatPhoneNumber (processField (formatPhoneNumber
          (processField d.phone))))) =
      (!truthyOpt (processField d.email) &&
        truthyOpt (formatPhoneNumber (processField d.phone)))
    rw [processField_idem d.email, phone_pipeline_idem d.phone]

/-- The record of claim C9's witness. -/
def dC9w : CVData :=
  { full_name := some (String.toList " John "),
    skills := some (String.toList "a, b") }

theorem claim_C9_witness :
    (process (reserialize (process dC9w))).skills =
      some (String.toList "a\nb") ∧
    (process (reserialize (process dC9w))).full_name = (process dC9w).full_name := by
  have h := claim_C9_amended dC9w
  exact ⟨h.1 (String.toList "a\nb") (by decide) (by decide), h.2.2.2.1⟩

end CVProof

